import Mathlib

/-!
Verification of the native binary codec of package `pb` (file
`pb/types_zap.go`, build tag `!grpc`) of the zapdb repository.

Buffers (`[]byte`) are embedded as `List Nat`, one entry per byte.
Record types keep their Go names and fields.  Go's `uint32`/`uint64`
fields become `Nat`, the `int32`-backed enum types and the `int64`
field become `Int`; a `Valid` predicate per record states the range
invariants the Go types enforce.

Every slice read of the Go decode paths (`binary.LittleEndian.Uint32`,
`copy` from a subslice, direct indexing) is modelled by a primitive
that returns `DErr.panicOOB` when the Go code would panic with an
index-out-of-range, so that absence of out-of-bounds access is a
provable statement about the embedding.
-/

deriving instance DecidableEq for Except

namespace Pb

/-- The error model: `bufferTooSmall` is `errBufferTooSmall`,
`invalidData` is `errInvalidData` (declared in the source, never
raised by this backend), `shortBuffer` is `io.ErrShortBuffer`
(returned by `MarshalToSizedBuffer`), and `panicOOB` stands for a Go
runtime panic caused by an out-of-range slice access. -/
inductive DErr where
  | bufferTooSmall
  | invalidData
  | shortBuffer
  | panicOOB
  deriving DecidableEq

/-- Little-endian value of a byte list, byte 0 least significant. -/
def leVal : List Nat → Nat
  | [] => 0
  | b :: bs => b + 256 * leVal bs

/-- `binary.LittleEndian.PutUint32`: the four little-endian bytes of the
low 32 bits of `n` (Go's `uint32(·)` conversion truncates). -/
def u32le (n : Nat) : List Nat :=
  [n % 256, n / 256 % 256, n / 65536 % 256, n / 16777216 % 256]

/-- `binary.LittleEndian.PutUint64`. -/
def u64le (n : Nat) : List Nat :=
  [n % 256, n / 256 % 256, n / 65536 % 256, n / 16777216 % 256,
   n / 4294967296 % 256, n / 1099511627776 % 256,
   n / 281474976710656 % 256, n / 72057594037927936 % 256]

/-- `binary.LittleEndian.Uint32(data[off:])`: panics unless four bytes
are available at `off`. -/
def readU32 (data : List Nat) (off : Nat) : Except DErr Nat :=
  if off + 4 ≤ data.length then .ok (leVal ((data.drop off).take 4))
  else .error .panicOOB

/-- `binary.LittleEndian.Uint64(data[off:])`. -/
def readU64 (data : List Nat) (off : Nat) : Except DErr Nat :=
  if off + 8 ≤ data.length then .ok (leVal ((data.drop off).take 8))
  else .error .panicOOB

/-- `data[off]`. -/
def readU8 (data : List Nat) (off : Nat) : Except DErr Nat :=
  if off < data.length then .ok ((data.drop off).headD 0)
  else .error .panicOOB

/-- A copy of `data[off : off+n]` (as made by `copy` into a fresh
`make([]byte, n)`); panics when the slice bounds exceed the buffer. -/
def readBytes (data : List Nat) (off n : Nat) : Except DErr (List Nat) :=
  if off + n ≤ data.length then .ok ((data.drop off).take n)
  else .error .panicOOB

/-- Go `uint32(v)` for an `int32` value `v`: the low 32 bits in two's
complement. -/
def u32ofInt32 (v : Int) : Nat := (v % 4294967296).toNat

/-- Go `int32(u)` for a `uint32` value `u`. -/
def int32ofU32 (u : Nat) : Int :=
  if u < 2147483648 then (u : Int) else (u : Int) - 4294967296

/-- Go `uint64(v)` for an `int64` value `v`. -/
def u64ofInt64 (v : Int) : Nat := (v % 18446744073709551616).toNat

/-- Go `int64(u)` for a `uint64` value `u`. -/
def int64ofU64 (u : Nat) : Int :=
  if u < 9223372036854775808 then (u : Int)
  else (u : Int) - 18446744073709551616

/-- The KV record. -/
structure KV where
  Key : List Nat
  Value : List Nat
  UserMeta : List Nat
  Version : Nat
  ExpiresAt : Nat
  Meta : List Nat
  StreamId : Nat
  StreamDone : Bool
  deriving DecidableEq

/-- `KV.Size`. -/
def KV.Size (k : KV) : Nat :=
  4 + k.Key.length + (4 + k.Value.length) + (4 + k.UserMeta.length) +
    8 + 8 + (4 + k.Meta.length) + 4 + 1

/-- The range invariants Go's field types give a `KV` (`[]byte` lengths
below 2^32 so the length prefixes are exact, `uint64`/`uint32` ranges). -/
def KV.Valid (k : KV) : Prop :=
  k.Key.length < 4294967296 ∧ k.Value.length < 4294967296 ∧
  k.UserMeta.length < 4294967296 ∧ k.Meta.length < 4294967296 ∧
  k.Version < 18446744073709551616 ∧ k.ExpiresAt < 18446744073709551616 ∧
  k.StreamId < 4294967296

instance (k : KV) : Decidable k.Valid := by
  unfold KV.Valid
  infer_instance

/-- The bytes `KV.Marshal` / `KV.MarshalToSizedBuffer` writes: each
variable-length field as a 4-byte length prefix plus raw bytes, then
the fixed-width fields, finally the one-byte bool. -/
def KV.Marshal (k : KV) : List Nat :=
  u32le k.Key.length ++ k.Key ++ u32le k.Value.length ++ k.Value ++
    u32le k.UserMeta.length ++ k.UserMeta ++ u64le k.Version ++
    u64le k.ExpiresAt ++ u32le k.Meta.length ++ k.Meta ++
    u32le k.StreamId ++ [if k.StreamDone then 1 else 0]

/-- `KV.MarshalToSizedBuffer`: `io.ErrShortBuffer` when the buffer is
smaller than `Size`, otherwise the written buffer (the encoding over
its first `Size` bytes, the tail unchanged) with the bytes-written
count. -/
def KV.MarshalToSizedBuffer (k : KV) (buf : List Nat) :
    Except DErr (Nat × List Nat) :=
  if buf.length < k.Size then .error .shortBuffer
  else .ok (k.Size, k.Marshal ++ buf.drop k.Size)

/-- `KV.Unmarshal`, with the source's bounds checks in order; every
read uses the panicking primitives. -/
def KV.Unmarshal (data : List Nat) : Except DErr KV :=
  if data.length < 37 then .error .bufferTooSmall else
  (readU32 data 0).bind fun keyLen =>
  if 4 + keyLen > data.length then .error .bufferTooSmall else
  (readBytes data 4 keyLen).bind fun key =>
  if 4 + keyLen + 4 > data.length then .error .bufferTooSmall else
  (readU32 data (4 + keyLen)).bind fun valueLen =>
  if 4 + keyLen + 4 + valueLen > data.length then .error .bufferTooSmall else
  (readBytes data (4 + keyLen + 4) valueLen).bind fun value =>
  if 4 + keyLen + 4 + valueLen + 4 > data.length then .error .bufferTooSmall else
  (readU32 data (4 + keyLen + 4 + valueLen)).bind fun userMetaLen =>
  if 4 + keyLen + 4 + valueLen + 4 + userMetaLen > data.length then
    .error .bufferTooSmall else
  (readBytes data (4 + keyLen + 4 + valueLen + 4) userMetaLen).bind fun userMeta =>
  if 4 + keyLen + 4 + valueLen + 4 + userMetaLen + 8 > data.length then
    .error .bufferTooSmall else
  (readU64 data (4 + keyLen + 4 + valueLen + 4 + userMetaLen)).bind fun version =>
  if 4 + keyLen + 4 + valueLen + 4 + userMetaLen + 8 + 8 > data.length then
    .error .bufferTooSmall else
  (readU64 data (4 + keyLen + 4 + valueLen + 4 + userMetaLen + 8)).bind fun expiresAt =>
  if 4 + keyLen + 4 + valueLen + 4 + userMetaLen + 16 + 4 > data.length then
    .error .bufferTooSmall else
  (readU32 data (4 + keyLen + 4 + valueLen + 4 + userMetaLen + 16)).bind fun metaLen =>
  if 4 + keyLen + 4 + valueLen + 4 + userMetaLen + 16 + 4 + metaLen > data.length then
    .error .bufferTooSmall else
  (readBytes data (4 + keyLen + 4 + valueLen + 4 + userMetaLen + 16 + 4) metaLen).bind
    fun meta =>
  if 4 + keyLen + 4 + valueLen + 4 + userMetaLen + 16 + 4 + metaLen + 4 > data.length then
    .error .bufferTooSmall else
  (readU32 data (4 + keyLen + 4 + valueLen + 4 + userMetaLen + 16 + 4 + metaLen)).bind
    fun streamId =>
  if 4 + keyLen + 4 + valueLen + 4 + userMetaLen + 16 + 4 + metaLen + 4 + 1 > data.length then
    .error .bufferTooSmall else
  (readU8 data (4 + keyLen + 4 + valueLen + 4 + userMetaLen + 16 + 4 + metaLen + 4)).bind
    fun sd =>
  .ok ⟨key, value, userMeta, version, expiresAt, meta, streamId, sd != 0⟩

/-- The KVList record. -/
structure KVList where
  Kv : List KV
  AllocRef : Nat
  deriving DecidableEq

/-- `KVList.Size`: `4 + 8` plus, per entry, a 4-byte length prefix and
the entry's own size; written as the source's accumulating loop. -/
def KVList.Size (l : KVList) : Nat :=
  l.Kv.foldl (fun size kv => size + (4 + kv.Size)) (4 + 8)

def KVList.Valid (l : KVList) : Prop :=
  l.Kv.length < 4294967296 ∧ l.AllocRef < 18446744073709551616 ∧
  ∀ kv ∈ l.Kv, kv.Valid ∧ kv.Size < 4294967296

instance (l : KVList) : Decidable l.Valid := by
  unfold KVList.Valid
  infer_instance

/-- The per-entry bytes of `KVList.Marshal`'s loop: `u32 len(encodedKV)`
then the entry written by `MarshalToSizedBuffer` into its slot. -/
def encodeKVEntries : List KV → List Nat
  | [] => []
  | kv :: rest => u32le kv.Size ++ kv.Marshal ++ encodeKVEntries rest

/-- `KVList.Marshal`: count, entries, then the trailing `allocRef`. -/
def KVList.Marshal (l : KVList) : List Nat :=
  u32le l.Kv.length ++ encodeKVEntries l.Kv ++ u64le l.AllocRef

/-- The decode loop of `KVList.Unmarshal`: for each of `count` entries,
bounds-check and read the 4-byte size, bounds-check the entry slice,
decode it with `KV.Unmarshal` (propagating its error), and advance the
offset; returns the decoded entries and the final offset. -/
def KVList.decodeLoop (data : List Nat) : Nat → Nat → Except DErr (List KV × Nat)
  | 0, off => .ok ([], off)
  | n + 1, off =>
    if off + 4 > data.length then .error .bufferTooSmall else
    (readU32 data off).bind fun kvSize =>
    if off + 4 + kvSize > data.length then .error .bufferTooSmall else
    (readBytes data (off + 4) kvSize).bind fun chunk =>
    (KV.Unmarshal chunk).bind fun kv =>
    (KVList.decodeLoop data n (off + 4 + kvSize)).bind fun res =>
    .ok (kv :: res.1, res.2)

/-- `KVList.Unmarshal`. -/
def KVList.Unmarshal (data : List Nat) : Except DErr KVList :=
  if data.length < 12 then .error .bufferTooSmall else
  (readU32 data 0).bind fun count =>
  (KVList.decodeLoop data count 4).bind fun res =>
  if res.2 + 8 > data.length then .error .bufferTooSmall else
  (readU64 data res.2).bind fun allocRef =>
  .ok ⟨res.1, allocRef⟩

/-- The ManifestChange record; `Op` and `EncryptionAlgo` are `int32`
enum types holding an arbitrary raw discriminant. -/
structure ManifestChange where
  Id : Nat
  Op : Int
  Level : Nat
  KeyId : Nat
  EncryptionAlgo : Int
  Compression : Nat
  deriving DecidableEq

def ManifestChange.Size (_ : ManifestChange) : Nat := 32

def ManifestChange.Valid (m : ManifestChange) : Prop :=
  m.Id < 18446744073709551616 ∧ m.KeyId < 18446744073709551616 ∧
  m.Level < 4294967296 ∧ m.Compression < 4294967296 ∧
  -2147483648 ≤ m.Op ∧ m.Op < 2147483648 ∧
  -2147483648 ≤ m.EncryptionAlgo ∧ m.EncryptionAlgo < 2147483648

instance (m : ManifestChange) : Decidable m.Valid := by
  unfold ManifestChange.Valid
  infer_instance

/-- `ManifestChange.Marshal`: six fixed-width little-endian fields,
32 bytes in all. -/
def ManifestChange.Marshal (m : ManifestChange) : List Nat :=
  u64le m.Id ++ u32le (u32ofInt32 m.Op) ++ u32le m.Level ++
    u64le m.KeyId ++ u32le (u32ofInt32 m.EncryptionAlgo) ++
    u32le m.Compression

/-- `ManifestChange.Unmarshal`. -/
def ManifestChange.Unmarshal (data : List Nat) : Except DErr ManifestChange :=
  if data.length < 32 then .error .bufferTooSmall else
  (readU64 data 0).bind fun id =>
  (readU32 data 8).bind fun op =>
  (readU32 data 12).bind fun level =>
  (readU64 data 16).bind fun keyId =>
  (readU32 data 24).bind fun algo =>
  (readU32 data 28).bind fun compression =>
  .ok ⟨id, int32ofU32 op, level, keyId, int32ofU32 algo, compression⟩

/-- The ManifestChangeSet record. -/
structure ManifestChangeSet where
  Changes : List ManifestChange
  deriving DecidableEq

/-- `ManifestChangeSet.Size`: 4 plus `4 + 32` per change. -/
def ManifestChangeSet.Size (m : ManifestChangeSet) : Nat :=
  m.Changes.foldl (fun size _ => size + (4 + 32)) 4

def ManifestChangeSet.Valid (m : ManifestChangeSet) : Prop :=
  m.Changes.length < 4294967296 ∧ ∀ c ∈ m.Changes, c.Valid

instance (m : ManifestChangeSet) : Decidable m.Valid := by
  unfold ManifestChangeSet.Valid
  infer_instance

/-- The per-entry bytes of `ManifestChangeSet.Marshal`'s loop:
`u32 len(changeData)` then the child's `Marshal` bytes. -/
def encodeMCEntries : List ManifestChange → List Nat
  | [] => []
  | c :: rest => u32le c.Marshal.length ++ c.Marshal ++ encodeMCEntries rest

/-- `ManifestChangeSet.Marshal`: count then the entries (no trailer). -/
def ManifestChangeSet.Marshal (m : ManifestChangeSet) : List Nat :=
  u32le m.Changes.length ++ encodeMCEntries m.Changes

/-- The decode loop of `ManifestChangeSet.Unmarshal`; child errors
propagate unchanged. -/
def ManifestChangeSet.decodeLoop (data : List Nat) :
    Nat → Nat → Except DErr (List ManifestChange × Nat)
  | 0, off => .ok ([], off)
  | n + 1, off =>
    if off + 4 > data.length then .error .bufferTooSmall else
    (readU32 data off).bind fun changeSize =>
    if off + 4 + changeSize > data.length then .error .bufferTooSmall else
    (readBytes data (off + 4) changeSize).bind fun chunk =>
    (ManifestChange.Unmarshal chunk).bind fun c =>
    (ManifestChangeSet.decodeLoop data n (off + 4 + changeSize)).bind fun res =>
    .ok (c :: res.1, res.2)

/-- `ManifestChangeSet.Unmarshal`. -/
def ManifestChangeSet.Unmarshal (data : List Nat) : Except DErr ManifestChangeSet :=
  if data.length < 4 then .error .bufferTooSmall else
  (readU32 data 0).bind fun count =>
  (ManifestChangeSet.decodeLoop data count 4).bind fun res =>
  .ok ⟨res.1⟩

/-- The DataKey record; `CreatedAt` is a signed `int64`. -/
structure DataKey where
  KeyId : Nat
  Data : List Nat
  Iv : List Nat
  CreatedAt : Int
  deriving DecidableEq

def DataKey.Size (d : DataKey) : Nat :=
  8 + 4 + d.Data.length + 4 + d.Iv.length + 8

def DataKey.Valid (d : DataKey) : Prop :=
  d.KeyId < 18446744073709551616 ∧
  d.Data.length < 4294967296 ∧ d.Iv.length < 4294967296 ∧
  -9223372036854775808 ≤ d.CreatedAt ∧ d.CreatedAt < 9223372036854775808

instance (d : DataKey) : Decidable d.Valid := by
  unfold DataKey.Valid
  infer_instance

/-- `DataKey.Marshal`. -/
def DataKey.Marshal (d : DataKey) : List Nat :=
  u64le d.KeyId ++ u32le d.Data.length ++ d.Data ++
    u32le d.Iv.length ++ d.Iv ++ u64le (u64ofInt64 d.CreatedAt)

/-- `DataKey.Unmarshal`. -/
def DataKey.Unmarshal (data : List Nat) : Except DErr DataKey :=
  if data.length < 24 then .error .bufferTooSmall else
  (readU64 data 0).bind fun keyId =>
  (readU32 data 8).bind fun dataLen =>
  if 12 + dataLen > data.length then .error .bufferTooSmall else
  (readBytes data 12 dataLen).bind fun d =>
  if 12 + dataLen + 4 > data.length then .error .bufferTooSmall else
  (readU32 data (12 + dataLen)).bind fun ivLen =>
  if 12 + dataLen + 4 + ivLen > data.length then .error .bufferTooSmall else
  (readBytes data (12 + dataLen + 4) ivLen).bind fun iv =>
  if 12 + dataLen + 4 + ivLen + 8 > data.length then .error .bufferTooSmall else
  (readU64 data (12 + dataLen + 4 + ivLen)).bind fun ca =>
  .ok ⟨keyId, d, iv, int64ofU64 ca⟩

/-- The Checksum record; `Algo` is an `int32` enum type. -/
structure Checksum where
  Algo : Int
  Sum : Nat
  deriving DecidableEq

def Checksum.Size (_ : Checksum) : Nat := 12

def Checksum.Valid (c : Checksum) : Prop :=
  -2147483648 ≤ c.Algo ∧ c.Algo < 2147483648 ∧
  c.Sum < 18446744073709551616

instance (c : Checksum) : Decidable c.Valid := by
  unfold Checksum.Valid
  infer_instance

/-- `Checksum.Marshal`: `u32 algo` then `u64 sum`, 12 bytes. -/
def Checksum.Marshal (c : Checksum) : List Nat :=
  u32le (u32ofInt32 c.Algo) ++ u64le c.Sum

/-- `Checksum.Unmarshal`. -/
def Checksum.Unmarshal (data : List Nat) : Except DErr Checksum :=
  if data.length < 12 then .error .bufferTooSmall else
  (readU32 data 0).bind fun algo =>
  (readU64 data 4).bind fun sum =>
  .ok ⟨int32ofU32 algo, sum⟩

/-- The Match record; the Go `string` field is byte-equivalent. -/
structure Match where
  Prefix : List Nat
  IgnoreBytes : List Nat
  deriving DecidableEq

def Match.Size (m : Match) : Nat :=
  4 + m.Prefix.length + 4 + m.IgnoreBytes.length

def Match.Valid (m : Match) : Prop :=
  m.Prefix.length < 4294967296 ∧ m.IgnoreBytes.length < 4294967296

instance (m : Match) : Decidable m.Valid := by
  unfold Match.Valid
  infer_instance

/-- `Match.Marshal`. -/
def Match.Marshal (m : Match) : List Nat :=
  u32le m.Prefix.length ++ m.Prefix ++
    u32le m.IgnoreBytes.length ++ m.IgnoreBytes

/-- `Match.Unmarshal`. -/
def Match.Unmarshal (data : List Nat) : Except DErr Match :=
  if data.length < 8 then .error .bufferTooSmall else
  (readU32 data 0).bind fun prefixLen =>
  if 4 + prefixLen > data.length then .error .bufferTooSmall else
  (readBytes data 4 prefixLen).bind fun pfx =>
  if 4 + prefixLen + 4 > data.length then .error .bufferTooSmall else
  (readU32 data (4 + prefixLen)).bind fun ignLen =>
  if 4 + prefixLen + 4 + ignLen > data.length then .error .bufferTooSmall else
  (readBytes data (4 + prefixLen + 4) ignLen).bind fun ign =>
  .ok ⟨pfx, ign⟩

/-- `MarshalOptions.MarshalAppend` of the dispatch layer: encodes with
the record's own `Marshal` and appends after the caller's bytes. -/
def MarshalAppend {α : Type} (marshalFn : α → List Nat)
    (b : List Nat) (m : α) : List Nat :=
  b ++ marshalFn m

/-! A store model for `KV.Clone`.  Go `[]byte` fields are references
into a store of byte arrays (`nil` is `none`), so in-place mutation
and aliasing are expressible.  The source's `Clone` copies the scalar
fields and, for each non-nil byte field, allocates a fresh array
(`make([]byte, len)`) and copies the contents into it. -/

/-- A store of byte arrays; an address is an index. -/
abbrev Store := List (List Nat)

/-- The contents of the array at address `a`. -/
def Store.read (s : Store) (a : Nat) : List Nat := s.getD a []

/-- In-place update of one byte of the array at address `a`
(`kv.Key[i] = b` in Go). -/
def Store.writeByte (s : Store) (a i b : Nat) : Store :=
  s.set a ((s.getD a []).set i b)

/-- The KV record with its byte fields as store references
(`none` is Go's `nil` slice). -/
structure KVRef where
  Key : Option Nat
  Value : Option Nat
  UserMeta : Option Nat
  Meta : Option Nat
  Version : Nat
  ExpiresAt : Nat
  StreamId : Nat
  StreamDone : Bool
  deriving DecidableEq

/-- `make([]byte, len(src))` plus `copy`: a fresh cell holding a copy
of the source cell's contents; a nil source stays nil. -/
def allocCopy (s : Store) (src : Option Nat) : Store × Option Nat :=
  match src with
  | none => (s, none)
  | some a => (s ++ [Store.read s a], some s.length)

/-- `KV.Clone` over the store model: a nil receiver clones to nil;
otherwise the scalar fields are copied and every non-nil byte field
gets a fresh deep-copied cell. -/
def KV.CloneRef (s : Store) : Option KVRef → Store × Option KVRef
  | none => (s, none)
  | some k =>
    let r1 := allocCopy s k.Key
    let r2 := allocCopy r1.1 k.Value
    let r3 := allocCopy r2.1 k.UserMeta
    let r4 := allocCopy r3.1 k.Meta
    (r4.1, some ⟨r1.2, r2.2, r3.2, r4.2, k.Version, k.ExpiresAt,
      k.StreamId, k.StreamDone⟩)

/-- Dereference a byte field: `none` for nil, otherwise the contents. -/
def readField (s : Store) : Option Nat → Option (List Nat)
  | none => none
  | some a => some (Store.read s a)

/-- The record's addresses point at live cells of the store. -/
def KVRef.Wf (s : Store) (k : KVRef) : Prop :=
  (∀ a, k.Key = some a → a < s.length) ∧
  (∀ a, k.Value = some a → a < s.length) ∧
  (∀ a, k.UserMeta = some a → a < s.length) ∧
  (∀ a, k.Meta = some a → a < s.length)

/-- The seven record types of the source file, and which of them define
a `Clone` method: the source implements `Clone` only for `KV`
(`pb/types_zap.go` lines 645-672); no other record type has one. -/
inductive RecordType where
  | kv
  | kvlist
  | manifestChange
  | manifestChangeSet
  | dataKey
  | checksum
  | matchRecord
  deriving DecidableEq

/-- Which record types the source gives a `Clone` method. -/
def hasClone : RecordType → Bool
  | .kv => true
  | _ => false

end Pb

namespace Pb

/-! Generic facts about the byte primitives. -/

@[simp]
theorem u32le_length (n : Nat) : (u32le n).length = 4 := rfl

@[simp]
theorem u64le_length (n : Nat) : (u64le n).length = 8 := rfl

theorem leVal_u32le (n : Nat) : leVal (u32le n) = n % 4294967296 := by
  simp [u32le, leVal]
  omega

theorem leVal_u64le (n : Nat) : leVal (u64le n) = n % 18446744073709551616 := by
  simp [u64le, leVal]
  omega

/-- Advancing the decode cursor past a block of known bytes. -/
theorem drop_cursor {data a rest : List Nat} {off n : Nat}
    (h : data.drop off = a ++ rest) (hn : n = off + a.length) :
    data.drop n = rest := by
  rw [hn, ← List.drop_drop, h, List.drop_left]

theorem take_append_long {a b : List Nat} {m : Nat} (h : a.length ≤ m) :
    (a ++ b).take m = a ++ b.take (m - a.length) := by
  rw [List.take_append_eq_append_take, List.take_of_length_le h]

theorem readU32_eq {data rest : List Nat} {off n : Nat}
    (h : data.drop off = u32le n ++ rest) :
    readU32 data off = .ok (n % 4294967296) := by
  have hl : data.length - off = 4 + rest.length := by
    rw [← List.length_drop, h]
    simp
  have hoff : off + 4 ≤ data.length := by omega
  have ht : (u32le n ++ rest).take 4 = u32le n := List.take_left (u32le n) rest
  rw [readU32, if_pos hoff, h, ht, leVal_u32le]

theorem readU64_eq {data rest : List Nat} {off n : Nat}
    (h : data.drop off = u64le n ++ rest) :
    readU64 data off = .ok (n % 18446744073709551616) := by
  have hl : data.length - off = 8 + rest.length := by
    rw [← List.length_drop, h]
    simp
  have hoff : off + 8 ≤ data.length := by omega
  have ht : (u64le n ++ rest).take 8 = u64le n := List.take_left (u64le n) rest
  rw [readU64, if_pos hoff, h, ht, leVal_u64le]

theorem readU8_eq {data rest : List Nat} {off b : Nat}
    (h : data.drop off = b :: rest) :
    readU8 data off = .ok b := by
  have hl : data.length - off = rest.length + 1 := by
    rw [← List.length_drop, h]
    simp
  have hoff : off < data.length := by omega
  rw [readU8, if_pos hoff, h]
  rfl

theorem readBytes_eq {data bs rest : List Nat} {off n : Nat}
    (h : data.drop off = bs ++ rest) (hn : bs.length = n)
    (hoff : off ≤ data.length) :
    readBytes data off n = .ok bs := by
  have hl : data.length - off = n + rest.length := by
    rw [← List.length_drop, h]
    simp [hn]
  have hb : off + n ≤ data.length := by omega
  have ht : (bs ++ rest).take n = bs := by
    rw [← hn]
    exact List.take_left bs rest
  rw [readBytes, if_pos hb, h, ht]

theorem take_cursor (data : List Nat) (k off : Nat) :
    (data.take k).drop off = (data.drop off).take (k - off) :=
  List.drop_take k off data

theorem readU32_take {data rest : List Nat} {off n k : Nat}
    (h : data.drop off = u32le n ++ rest) (hk : off + 4 ≤ k) :
    readU32 (data.take k) off = .ok (n % 4294967296) := by
  have hh : (data.take k).drop off = u32le n ++ rest.take (k - off - 4) := by
    rw [take_cursor, h, take_append_long (by simp; omega)]
    simp
  exact readU32_eq hh

theorem readU64_take {data rest : List Nat} {off n k : Nat}
    (h : data.drop off = u64le n ++ rest) (hk : off + 8 ≤ k) :
    readU64 (data.take k) off = .ok (n % 18446744073709551616) := by
  have hh : (data.take k).drop off = u64le n ++ rest.take (k - off - 8) := by
    rw [take_cursor, h, take_append_long (by simp; omega)]
    simp
  exact readU64_eq hh

theorem readBytes_take {data bs rest : List Nat} {off n k : Nat}
    (h : data.drop off = bs ++ rest) (hn : bs.length = n)
    (hk : off + n ≤ k) (hd : off ≤ data.length) :
    readBytes (data.take k) off n = .ok bs := by
  have hh : (data.take k).drop off = bs ++ rest.take (k - off - n) := by
    rw [take_cursor, h, take_append_long (by omega)]
    rw [hn]
  refine readBytes_eq hh hn ?_
  simp [List.length_take]
  omega

theorem int32_roundtrip {v : Int} (h1 : -2147483648 ≤ v) (h2 : v < 2147483648) :
    int32ofU32 (u32ofInt32 v % 4294967296) = v := by
  unfold int32ofU32 u32ofInt32
  omega

theorem int64_roundtrip {v : Int}
    (h1 : -9223372036854775808 ≤ v) (h2 : v < 9223372036854775808) :
    int64ofU64 (u64ofInt64 v % 18446744073709551616) = v := by
  unfold int64ofU64 u64ofInt64
  omega

end Pb

namespace Pb

/-! The KV round-trip: decoding a KV encoding followed by any trailing
bytes succeeds and reproduces the record. -/

set_option maxHeartbeats 1000000 in
theorem kv_unmarshal_marshal_append (k : KV) (h : k.Valid) (extra : List Nat) :
    KV.Unmarshal (k.Marshal ++ extra) = .ok k := by
  obtain ⟨key, value, um, ver, exp, meta, sid, sd⟩ := k
  obtain ⟨h1, h2, h3, h4, h5, h6, h7⟩ := h
  simp only [KV.Valid] at h1 h2 h3 h4 h5 h6 h7
  generalize hdata : KV.Marshal ⟨key, value, um, ver, exp, meta, sid, sd⟩ ++ extra = data
  have hlen : data.length =
      37 + key.length + value.length + um.length + meta.length + extra.length := by
    rw [← hdata]
    simp only [KV.Marshal, List.length_append, u32le_length, u64le_length,
      List.length_singleton]
    omega
  have d0 : data.drop 0 = u32le key.length ++ (key ++ (u32le value.length ++
      (value ++ (u32le um.length ++ (um ++ (u64le ver ++ (u64le exp ++
      (u32le meta.length ++ (meta ++ (u32le sid ++
      (if sd then 1 else 0) :: extra)))))))))) := by
    rw [List.drop_zero, ← hdata]
    simp [KV.Marshal]
  have d1 : data.drop 4 = key ++ (u32le value.length ++ (value ++
      (u32le um.length ++ (um ++ (u64le ver ++ (u64le exp ++
      (u32le meta.length ++ (meta ++ (u32le sid ++
      (if sd then 1 else 0) :: extra))))))))) :=
    drop_cursor d0 (by simp only [u32le_length, u64le_length])
  have d2 : data.drop (4 + key.length) = u32le value.length ++ (value ++
      (u32le um.length ++ (um ++ (u64le ver ++ (u64le exp ++
      (u32le meta.length ++ (meta ++ (u32le sid ++
      (if sd then 1 else 0) :: extra)))))))) :=
    drop_cursor d1 (by simp only [u32le_length, u64le_length])
  have d3 : data.drop (4 + key.length + 4) = value ++
      (u32le um.length ++ (um ++ (u64le ver ++ (u64le exp ++
      (u32le meta.length ++ (meta ++ (u32le sid ++
      (if sd then 1 else 0) :: extra))))))) :=
    drop_cursor d2 (by simp only [u32le_length, u64le_length])
  have d4 : data.drop (4 + key.length + 4 + value.length) =
      u32le um.length ++ (um ++ (u64le ver ++ (u64le exp ++
      (u32le meta.length ++ (meta ++ (u32le sid ++
      (if sd then 1 else 0) :: extra)))))) :=
    drop_cursor d3 (by simp only [u32le_length, u64le_length])
  have d5 : data.drop (4 + key.length + 4 + value.length + 4) =
      um ++ (u64le ver ++ (u64le exp ++ (u32le meta.length ++ (meta ++
      (u32le sid ++ (if sd then 1 else 0) :: extra))))) :=
    drop_cursor d4 (by simp only [u32le_length, u64le_length])
  have d6 : data.drop (4 + key.length + 4 + value.length + 4 + um.length) =
      u64le ver ++ (u64le exp ++ (u32le meta.length ++ (meta ++
      (u32le sid ++ (if sd then 1 else 0) :: extra)))) :=
    drop_cursor d5 (by simp only [u32le_length, u64le_length])
  have d7 : data.drop (4 + key.length + 4 + value.length + 4 + um.length + 8) =
      u64le exp ++ (u32le meta.length ++ (meta ++
      (u32le sid ++ (if sd then 1 else 0) :: extra))) :=
    drop_cursor d6 (by simp only [u32le_length, u64le_length])
  have d8 : data.drop (4 + key.length + 4 + value.length + 4 + um.length + 16) =
      u32le meta.length ++ (meta ++ (u32le sid ++
      (if sd then 1 else 0) :: extra)) :=
    drop_cursor d7 (by simp only [u32le_length, u64le_length])
  have d9 : data.drop (4 + key.length + 4 + value.length + 4 + um.length + 16 + 4) =
      meta ++ (u32le sid ++ (if sd then 1 else 0) :: extra) :=
    drop_cursor d8 (by simp only [u32le_length, u64le_length])
  have d10 : data.drop
      (4 + key.length + 4 + value.length + 4 + um.length + 16 + 4 + meta.length) =
      u32le sid ++ (if sd then 1 else 0) :: extra :=
    drop_cursor d9 (by simp only [u32le_length, u64le_length])
  have d11 : data.drop
      (4 + key.length + 4 + value.length + 4 + um.length + 16 + 4 + meta.length + 4) =
      (if sd then 1 else 0) :: extra :=
    drop_cursor d10 (by simp only [u32le_length, u64le_length])
  simp only [KV.Unmarshal]
  rw [if_neg (by omega), readU32_eq d0, Nat.mod_eq_of_lt h1]
  simp only [Except.bind]
  rw [if_neg (by omega), readBytes_eq d1 rfl (by omega)]
  simp only [Except.bind]
  rw [if_neg (by omega), readU32_eq d2, Nat.mod_eq_of_lt h2]
  simp only [Except.bind]
  rw [if_neg (by omega), readBytes_eq d3 rfl (by omega)]
  simp only [Except.bind]
  rw [if_neg (by omega), readU32_eq d4, Nat.mod_eq_of_lt h3]
  simp only [Except.bind]
  rw [if_neg (by omega), readBytes_eq d5 rfl (by omega)]
  simp only [Except.bind]
  rw [if_neg (by omega), readU64_eq d6, Nat.mod_eq_of_lt h5]
  simp only [Except.bind]
  rw [if_neg (by omega), readU64_eq d7, Nat.mod_eq_of_lt h6]
  simp only [Except.bind]
  rw [if_neg (by omega), readU32_eq d8, Nat.mod_eq_of_lt h4]
  simp only [Except.bind]
  rw [if_neg (by omega), readBytes_eq d9 rfl (by omega)]
  simp only [Except.bind]
  rw [if_neg (by omega), readU32_eq d10, Nat.mod_eq_of_lt h7]
  simp only [Except.bind]
  rw [if_neg (by omega), readU8_eq d11]
  simp only [Except.bind]
  cases sd <;> rfl

/-! Round-trips of the fixed-size and remaining variable-size records,
again with arbitrary trailing bytes after the encoding. -/

theorem mc_unmarshal_marshal_append (m : ManifestChange)
    (h : m.Valid) (extra : List Nat) :
    ManifestChange.Unmarshal (m.Marshal ++ extra) = .ok m := by
  obtain ⟨id, op, lvl, kid, algo, comp⟩ := m
  obtain ⟨h1, h2, h3, h4, h5, h6, h7, h8⟩ := h
  simp only [ManifestChange.Valid] at h1 h2 h3 h4 h5 h6 h7 h8
  generalize hdata :
    ManifestChange.Marshal ⟨id, op, lvl, kid, algo, comp⟩ ++ extra = data
  have hlen : data.length = 32 + extra.length := by
    rw [← hdata]
    simp only [ManifestChange.Marshal, List.length_append, u32le_length,
      u64le_length]
  have d0 : data.drop 0 = u64le id ++ (u32le (u32ofInt32 op) ++
      (u32le lvl ++ (u64le kid ++ (u32le (u32ofInt32 algo) ++
      (u32le comp ++ extra))))) := by
    rw [List.drop_zero, ← hdata]
    simp [ManifestChange.Marshal]
  have d1 : data.drop 8 = u32le (u32ofInt32 op) ++ (u32le lvl ++
      (u64le kid ++ (u32le (u32ofInt32 algo) ++ (u32le comp ++ extra)))) :=
    drop_cursor d0 (by simp only [u32le_length, u64le_length])
  have d2 : data.drop 12 = u32le lvl ++ (u64le kid ++
      (u32le (u32ofInt32 algo) ++ (u32le comp ++ extra))) :=
    drop_cursor d1 (by simp only [u32le_length, u64le_length])
  have d3 : data.drop 16 = u64le kid ++ (u32le (u32ofInt32 algo) ++
      (u32le comp ++ extra)) :=
    drop_cursor d2 (by simp only [u32le_length, u64le_length])
  have d4 : data.drop 24 = u32le (u32ofInt32 algo) ++ (u32le comp ++ extra) :=
    drop_cursor d3 (by simp only [u32le_length, u64le_length])
  have d5 : data.drop 28 = u32le comp ++ extra :=
    drop_cursor d4 (by simp only [u32le_length, u64le_length])
  simp only [ManifestChange.Unmarshal]
  rw [if_neg (by omega), readU64_eq d0, Nat.mod_eq_of_lt h1]
  simp only [Except.bind]
  rw [readU32_eq d1]
  simp only [Except.bind]
  rw [readU32_eq d2, Nat.mod_eq_of_lt h3]
  simp only [Except.bind]
  rw [readU64_eq d3, Nat.mod_eq_of_lt h2]
  simp only [Except.bind]
  rw [readU32_eq d4]
  simp only [Except.bind]
  rw [readU32_eq d5, Nat.mod_eq_of_lt h4]
  simp only [Except.bind]
  rw [int32_roundtrip h5 h6, int32_roundtrip h7 h8]

theorem cks_unmarshal_marshal_append (c : Checksum)
    (h : c.Valid) (extra : List Nat) :
    Checksum.Unmarshal (c.Marshal ++ extra) = .ok c := by
  obtain ⟨algo, sum⟩ := c
  obtain ⟨h1, h2, h3⟩ := h
  simp only [Checksum.Valid] at h1 h2 h3
  generalize hdata : Checksum.Marshal ⟨algo, sum⟩ ++ extra = data
  have hlen : data.length = 12 + extra.length := by
    rw [← hdata]
    simp only [Checksum.Marshal, List.length_append, u32le_length, u64le_length]
  have d0 : data.drop 0 = u32le (u32ofInt32 algo) ++ (u64le sum ++ extra) := by
    rw [List.drop_zero, ← hdata]
    simp [Checksum.Marshal]
  have d1 : data.drop 4 = u64le sum ++ extra :=
    drop_cursor d0 (by simp only [u32le_length, u64le_length])
  simp only [Checksum.Unmarshal]
  rw [if_neg (by omega), readU32_eq d0]
  simp only [Except.bind]
  rw [readU64_eq d1, Nat.mod_eq_of_lt h3]
  simp only [Except.bind]
  rw [int32_roundtrip h1 h2]

theorem dk_unmarshal_marshal_append (d : DataKey)
    (h : d.Valid) (extra : List Nat) :
    DataKey.Unmarshal (d.Marshal ++ extra) = .ok d := by
  obtain ⟨kid, dat, iv, ca⟩ := d
  obtain ⟨h1, h2, h3, h4, h5⟩ := h
  simp only [DataKey.Valid] at h1 h2 h3 h4 h5
  generalize hdata : DataKey.Marshal ⟨kid, dat, iv, ca⟩ ++ extra = data
  have hlen : data.length = 24 + dat.length + iv.length + extra.length := by
    rw [← hdata]
    simp only [DataKey.Marshal, List.length_append, u32le_length, u64le_length]
    omega
  have d0 : data.drop 0 = u64le kid ++ (u32le dat.length ++ (dat ++
      (u32le iv.length ++ (iv ++ u64le (u64ofInt64 ca) ++ extra)))) := by
    rw [List.drop_zero, ← hdata]
    simp [DataKey.Marshal]
  have d1 : data.drop 8 = u32le dat.length ++ (dat ++
      (u32le iv.length ++ (iv ++ u64le (u64ofInt64 ca) ++ extra))) :=
    drop_cursor d0 (by simp only [u32le_length, u64le_length])
  have d2 : data.drop 12 = dat ++
      (u32le iv.length ++ (iv ++ u64le (u64ofInt64 ca) ++ extra)) :=
    drop_cursor d1 (by simp only [u32le_length, u64le_length])
  have d3 : data.drop (12 + dat.length) =
      u32le iv.length ++ (iv ++ u64le (u64ofInt64 ca) ++ extra) :=
    drop_cursor d2 (by simp only [u32le_length, u64le_length])
  have d4 : data.drop (12 + dat.length + 4) =
      iv ++ u64le (u64ofInt64 ca) ++ extra :=
    drop_cursor d3 (by simp only [u32le_length, u64le_length])
  have d4' : data.drop (12 + dat.length + 4) =
      iv ++ (u64le (u64ofInt64 ca) ++ extra) := by
    rw [d4, List.append_assoc]
  have d5 : data.drop (12 + dat.length + 4 + iv.length) =
      u64le (u64ofInt64 ca) ++ extra :=
    drop_cursor d4' (by simp only [u32le_length, u64le_length])
  simp only [DataKey.Unmarshal]
  rw [if_neg (by omega), readU64_eq d0, Nat.mod_eq_of_lt h1]
  simp only [Except.bind]
  rw [readU32_eq d1, Nat.mod_eq_of_lt h2]
  simp only [Except.bind]
  rw [if_neg (by omega), readBytes_eq d2 rfl (by omega)]
  simp only [Except.bind]
  rw [if_neg (by omega), readU32_eq d3, Nat.mod_eq_of_lt h3]
  simp only [Except.bind]
  rw [if_neg (by omega), readBytes_eq d4' rfl (by omega)]
  simp only [Except.bind]
  rw [if_neg (by omega), readU64_eq d5]
  simp only [Except.bind]
  rw [int64_roundtrip h4 h5]

theorem mtch_unmarshal_marshal_append (m : Match)
    (h : m.Valid) (extra : List Nat) :
    Match.Unmarshal (m.Marshal ++ extra) = .ok m := by
  obtain ⟨pfx, ign⟩ := m
  obtain ⟨h1, h2⟩ := h
  simp only [Match.Valid] at h1 h2
  generalize hdata : Match.Marshal ⟨pfx, ign⟩ ++ extra = data
  have hlen : data.length = 8 + pfx.length + ign.length + extra.length := by
    rw [← hdata]
    simp only [Match.Marshal, List.length_append, u32le_length]
    omega
  have d0 : data.drop 0 = u32le pfx.length ++ (pfx ++
      (u32le ign.length ++ (ign ++ extra))) := by
    rw [List.drop_zero, ← hdata]
    simp [Match.Marshal]
  have d1 : data.drop 4 = pfx ++ (u32le ign.length ++ (ign ++ extra)) :=
    drop_cursor d0 (by simp only [u32le_length])
  have d2 : data.drop (4 + pfx.length) = u32le ign.length ++ (ign ++ extra) :=
    drop_cursor d1 (by simp only [u32le_length])
  have d3 : data.drop (4 + pfx.length + 4) = ign ++ extra :=
    drop_cursor d2 (by simp only [u32le_length])
  simp only [Match.Unmarshal]
  rw [if_neg (by omega), readU32_eq d0, Nat.mod_eq_of_lt h1]
  simp only [Except.bind]
  rw [if_neg (by omega), readBytes_eq d1 rfl (by omega)]
  simp only [Except.bind]
  rw [if_neg (by omega), readU32_eq d2, Nat.mod_eq_of_lt h2]
  simp only [Except.bind]
  rw [if_neg (by omega), readBytes_eq d3 rfl (by omega)]

/-! Exact round-trips: decoding precisely the marshalled bytes. -/

theorem kv_unmarshal_marshal (k : KV) (h : k.Valid) :
    KV.Unmarshal k.Marshal = .ok k := by
  have hx := kv_unmarshal_marshal_append k h []
  rwa [List.append_nil] at hx

theorem mc_unmarshal_marshal (m : ManifestChange) (h : m.Valid) :
    ManifestChange.Unmarshal m.Marshal = .ok m := by
  have hx := mc_unmarshal_marshal_append m h []
  rwa [List.append_nil] at hx

theorem cks_unmarshal_marshal (c : Checksum) (h : c.Valid) :
    Checksum.Unmarshal c.Marshal = .ok c := by
  have hx := cks_unmarshal_marshal_append c h []
  rwa [List.append_nil] at hx

theorem dk_unmarshal_marshal (d : DataKey) (h : d.Valid) :
    DataKey.Unmarshal d.Marshal = .ok d := by
  have hx := dk_unmarshal_marshal_append d h []
  rwa [List.append_nil] at hx

theorem mtch_unmarshal_marshal (m : Match) (h : m.Valid) :
    Match.Unmarshal m.Marshal = .ok m := by
  have hx := mtch_unmarshal_marshal_append m h []
  rwa [List.append_nil] at hx

/-! The marshalled length of every record equals its `Size`. -/

theorem kv_marshal_length (k : KV) : k.Marshal.length = k.Size := by
  simp only [KV.Marshal, KV.Size, List.length_append, u32le_length, u64le_length,
    List.length_singleton]
  omega

theorem mc_marshal_length (m : ManifestChange) :
    m.Marshal.length = m.Size := by
  simp only [ManifestChange.Marshal, ManifestChange.Size, List.length_append,
    u32le_length, u64le_length]

theorem cks_marshal_length (c : Checksum) : c.Marshal.length = c.Size := by
  simp only [Checksum.Marshal, Checksum.Size, List.length_append, u32le_length,
    u64le_length]

theorem dk_marshal_length (d : DataKey) : d.Marshal.length = d.Size := by
  simp only [DataKey.Marshal, DataKey.Size, List.length_append, u32le_length,
    u64le_length]

theorem mtch_marshal_length (m : Match) : m.Marshal.length = m.Size := by
  simp only [Match.Marshal, Match.Size, List.length_append, u32le_length]

theorem kvlist_size_loop (kvs : List KV) (acc : Nat) :
    kvs.foldl (fun size kv => size + (4 + kv.Size)) acc =
      acc + (encodeKVEntries kvs).length := by
  induction kvs generalizing acc with
  | nil => simp [encodeKVEntries]
  | cons kv rest ih =>
    rw [List.foldl_cons, ih]
    simp only [encodeKVEntries, List.length_append, u32le_length,
      kv_marshal_length]
    omega

theorem kvlist_marshal_length (l : KVList) : l.Marshal.length = l.Size := by
  rw [KVList.Size, kvlist_size_loop]
  simp only [KVList.Marshal, List.length_append, u32le_length, u64le_length]
  omega

theorem mcs_size_loop (cs : List ManifestChange) (acc : Nat) :
    cs.foldl (fun size _ => size + (4 + 32)) acc =
      acc + (encodeMCEntries cs).length := by
  induction cs generalizing acc with
  | nil => simp [encodeMCEntries]
  | cons c rest ih =>
    rw [List.foldl_cons, ih]
    simp only [encodeMCEntries, List.length_append, u32le_length,
      mc_marshal_length, ManifestChange.Size]
    omega

theorem mcs_marshal_length (m : ManifestChangeSet) :
    m.Marshal.length = m.Size := by
  rw [ManifestChangeSet.Size, mcs_size_loop]
  simp only [ManifestChangeSet.Marshal, List.length_append, u32le_length]

/-! The decode loops succeed on a buffer whose cursor points at the
encoded entries, consuming exactly the entries and returning them. -/

theorem kvlist_decodeLoop_ok (kvs : List KV)
    (hv : ∀ kv ∈ kvs, kv.Valid ∧ kv.Size < 4294967296)
    (data tail : List Nat) (off : Nat)
    (hd : data.drop off = encodeKVEntries kvs ++ tail) :
    KVList.decodeLoop data kvs.length off =
      .ok (kvs, off + (encodeKVEntries kvs).length) := by
  induction kvs generalizing off tail with
  | nil =>
    simp [KVList.decodeLoop, encodeKVEntries]
  | cons kv rest ih =>
    obtain ⟨hkv, hks⟩ := hv kv (List.mem_cons_self kv rest)
    have hv' : ∀ x ∈ rest, x.Valid ∧ x.Size < 4294967296 := fun x hx =>
      hv x (List.mem_cons_of_mem kv hx)
    have hd0 : data.drop off = u32le kv.Size ++ (kv.Marshal ++
        (encodeKVEntries rest ++ tail)) := by
      rw [hd]
      simp [encodeKVEntries]
    have hd1 : data.drop (off + 4) = kv.Marshal ++
        (encodeKVEntries rest ++ tail) :=
      drop_cursor hd0 (by simp only [u32le_length])
    have hd2 : data.drop (off + 4 + kv.Size) = encodeKVEntries rest ++ tail :=
      drop_cursor hd1 (by rw [kv_marshal_length])
    have hlen : data.length - off =
        4 + kv.Size + (encodeKVEntries rest).length + tail.length := by
      rw [← List.length_drop, hd0]
      simp only [List.length_append, u32le_length, kv_marshal_length]
      omega
    simp only [List.length_cons, KVList.decodeLoop]
    rw [if_neg (by omega), readU32_eq hd0, Nat.mod_eq_of_lt hks]
    simp only [Except.bind]
    rw [if_neg (by omega), readBytes_eq hd1 (kv_marshal_length kv) (by omega)]
    simp only [Except.bind]
    rw [kv_unmarshal_marshal kv hkv]
    simp only [Except.bind]
    rw [ih hv' tail (off + 4 + kv.Size) hd2]
    simp only [Except.bind]
    have hoff : off + (encodeKVEntries (kv :: rest)).length =
        off + 4 + kv.Size + (encodeKVEntries rest).length := by
      simp only [encodeKVEntries, List.length_append, u32le_length,
        kv_marshal_length]
      omega
    rw [hoff]

theorem mcs_decodeLoop_ok (cs : List ManifestChange)
    (hv : ∀ c ∈ cs, c.Valid)
    (data tail : List Nat) (off : Nat)
    (hd : data.drop off = encodeMCEntries cs ++ tail) :
    ManifestChangeSet.decodeLoop data cs.length off =
      .ok (cs, off + (encodeMCEntries cs).length) := by
  induction cs generalizing off tail with
  | nil =>
    simp [ManifestChangeSet.decodeLoop, encodeMCEntries]
  | cons c rest ih =>
    have hc := hv c (List.mem_cons_self c rest)
    have hv' : ∀ x ∈ rest, x.Valid := fun x hx =>
      hv x (List.mem_cons_of_mem c hx)
    have hml : c.Marshal.length = 32 := by
      rw [mc_marshal_length]
      rfl
    have hd0 : data.drop off = u32le c.Marshal.length ++ (c.Marshal ++
        (encodeMCEntries rest ++ tail)) := by
      rw [hd]
      simp [encodeMCEntries]
    have hd1 : data.drop (off + 4) = c.Marshal ++
        (encodeMCEntries rest ++ tail) :=
      drop_cursor hd0 (by simp only [u32le_length])
    have hd2 : data.drop (off + 4 + c.Marshal.length) =
        encodeMCEntries rest ++ tail :=
      drop_cursor hd1 rfl
    have hlen : data.length - off =
        4 + 32 + (encodeMCEntries rest).length + tail.length := by
      rw [← List.length_drop, hd0]
      simp only [List.length_append, u32le_length, hml]
      omega
    simp only [List.length_cons, ManifestChangeSet.decodeLoop]
    rw [if_neg (by omega), readU32_eq hd0,
      Nat.mod_eq_of_lt (by rw [hml]; omega)]
    simp only [Except.bind]
    rw [if_neg (by rw [hml]; omega), readBytes_eq hd1 rfl (by omega)]
    simp only [Except.bind]
    rw [mc_unmarshal_marshal c hc]
    simp only [Except.bind]
    rw [ih hv' tail (off + 4 + c.Marshal.length) hd2]
    simp only [Except.bind]
    have hoff : off + (encodeMCEntries (c :: rest)).length =
        off + 4 + c.Marshal.length + (encodeMCEntries rest).length := by
      simp only [encodeMCEntries, List.length_append, u32le_length]
      omega
    rw [hoff]

/-! Round-trips of the composite records. -/

theorem kvlist_unmarshal_marshal_append (l : KVList) (h : l.Valid)
    (extra : List Nat) :
    KVList.Unmarshal (l.Marshal ++ extra) = .ok l := by
  obtain ⟨kvs, aref⟩ := l
  obtain ⟨hc, ha, hv⟩ := h
  simp only [KVList.Valid] at hc ha hv
  generalize hdata : KVList.Marshal ⟨kvs, aref⟩ ++ extra = data
  have d0 : data.drop 0 = u32le kvs.length ++
      (encodeKVEntries kvs ++ (u64le aref ++ extra)) := by
    rw [List.drop_zero, ← hdata]
    simp [KVList.Marshal]
  have d1 : data.drop 4 = encodeKVEntries kvs ++ (u64le aref ++ extra) :=
    drop_cursor d0 (by simp only [u32le_length])
  have d2 : data.drop (4 + (encodeKVEntries kvs).length) =
      u64le aref ++ extra :=
    drop_cursor d1 rfl
  have hlen : data.length =
      4 + (encodeKVEntries kvs).length + 8 + extra.length := by
    rw [← hdata]
    simp only [KVList.Marshal, List.length_append, u32le_length, u64le_length]
  simp only [KVList.Unmarshal]
  rw [if_neg (by omega), readU32_eq d0, Nat.mod_eq_of_lt hc]
  simp only [Except.bind]
  rw [kvlist_decodeLoop_ok kvs hv data (u64le aref ++ extra) 4 d1]
  simp only [Except.bind]
  rw [if_neg (by omega), readU64_eq d2, Nat.mod_eq_of_lt ha]

theorem mcs_unmarshal_marshal_append (m : ManifestChangeSet)
    (h : m.Valid) (extra : List Nat) :
    ManifestChangeSet.Unmarshal (m.Marshal ++ extra) = .ok m := by
  obtain ⟨cs⟩ := m
  obtain ⟨hc, hv⟩ := h
  simp only [ManifestChangeSet.Valid] at hc hv
  generalize hdata : ManifestChangeSet.Marshal ⟨cs⟩ ++ extra = data
  have d0 : data.drop 0 = u32le cs.length ++ (encodeMCEntries cs ++ extra) := by
    rw [List.drop_zero, ← hdata]
    simp [ManifestChangeSet.Marshal]
  have d1 : data.drop 4 = encodeMCEntries cs ++ extra :=
    drop_cursor d0 (by simp only [u32le_length])
  have hlen : data.length = 4 + (encodeMCEntries cs).length + extra.length := by
    rw [← hdata]
    simp only [ManifestChangeSet.Marshal, List.length_append, u32le_length]
  simp only [ManifestChangeSet.Unmarshal]
  rw [if_neg (by omega), readU32_eq d0, Nat.mod_eq_of_lt hc]
  simp only [Except.bind]
  rw [mcs_decodeLoop_ok cs hv data extra 4 d1]

theorem kvlist_unmarshal_marshal (l : KVList) (h : l.Valid) :
    KVList.Unmarshal l.Marshal = .ok l := by
  have hx := kvlist_unmarshal_marshal_append l h []
  rwa [List.append_nil] at hx

theorem mcs_unmarshal_marshal (m : ManifestChangeSet)
    (h : m.Valid) :
    ManifestChangeSet.Unmarshal m.Marshal = .ok m := by
  have hx := mcs_unmarshal_marshal_append m h []
  rwa [List.append_nil] at hx

end Pb

namespace Pb

/-! Truncation safety: decoding any strict prefix of a valid encoding
fails with `bufferTooSmall`, for every record type. -/

theorem kv_unmarshal_truncated (k : KV) (h : k.Valid) (j : Nat)
    (hj : j < k.Marshal.length) :
    KV.Unmarshal (k.Marshal.take j) = .error .bufferTooSmall := by
  obtain ⟨key, value, um, ver, exp, meta, sid, sd⟩ := k
  obtain ⟨h1, h2, h3, h4, h5, h6, h7⟩ := h
  simp only [KV.Valid] at h1 h2 h3 h4 h5 h6 h7
  revert hj
  generalize hdata : KV.Marshal ⟨key, value, um, ver, exp, meta, sid, sd⟩ = data
  intro hj
  have hlen : data.length =
      37 + key.length + value.length + um.length + meta.length := by
    rw [← hdata]
    simp only [KV.Marshal, List.length_append, u32le_length, u64le_length,
      List.length_singleton]
    omega
  have d0 : data.drop 0 = u32le key.length ++ (key ++ (u32le value.length ++
      (value ++ (u32le um.length ++ (um ++ (u64le ver ++ (u64le exp ++
      (u32le meta.length ++ (meta ++ (u32le sid ++
      [if sd then 1 else 0])))))))))) := by
    rw [List.drop_zero, ← hdata]
    simp [KV.Marshal]
  have d1 : data.drop 4 = key ++ (u32le value.length ++
      (value ++ (u32le um.length ++ (um ++ (u64le ver ++ (u64le exp ++
      (u32le meta.length ++ (meta ++ (u32le sid ++
      [if sd then 1 else 0]))))))))) :=
    drop_cursor d0 (by simp only [u32le_length])
  have d2 : data.drop (4 + key.length) = u32le value.length ++
      (value ++ (u32le um.length ++ (um ++ (u64le ver ++ (u64le exp ++
      (u32le meta.length ++ (meta ++ (u32le sid ++
      [if sd then 1 else 0])))))))) :=
    drop_cursor d1 (by simp only [u32le_length])
  have d3 : data.drop (4 + key.length + 4) =
      value ++ (u32le um.length ++ (um ++ (u64le ver ++ (u64le exp ++
      (u32le meta.length ++ (meta ++ (u32le sid ++
      [if sd then 1 else 0]))))))) :=
    drop_cursor d2 (by simp only [u32le_length])
  have d4 : data.drop (4 + key.length + 4 + value.length) =
      u32le um.length ++ (um ++ (u64le ver ++ (u64le exp ++
      (u32le meta.length ++ (meta ++ (u32le sid ++
      [if sd then 1 else 0])))))) :=
    drop_cursor d3 (by simp only [u32le_length])
  have d5 : data.drop (4 + key.length + 4 + value.length + 4) =
      um ++ (u64le ver ++ (u64le exp ++ (u32le meta.length ++ (meta ++
      (u32le sid ++ [if sd then 1 else 0]))))) :=
    drop_cursor d4 (by simp only [u32le_length])
  have d6 : data.drop (4 + key.length + 4 + value.length + 4 + um.length) =
      u64le ver ++ (u64le exp ++ (u32le meta.length ++ (meta ++
      (u32le sid ++ [if sd then 1 else 0])))) :=
    drop_cursor d5 (by simp only [u32le_length])
  have d7 : data.drop (4 + key.length + 4 + value.length + 4 + um.length + 8) =
      u64le exp ++ (u32le meta.length ++ (meta ++
      (u32le sid ++ [if sd then 1 else 0]))) :=
    drop_cursor d6 (by simp only [u32le_length, u64le_length])
  have d8 : data.drop (4 + key.length + 4 + value.length + 4 + um.length + 16) =
      u32le meta.length ++ (meta ++ (u32le sid ++ [if sd then 1 else 0])) :=
    drop_cursor d7 (by simp only [u32le_length, u64le_length])
  have d9 : data.drop
      (4 + key.length + 4 + value.length + 4 + um.length + 16 + 4) =
      meta ++ (u32le sid ++ [if sd then 1 else 0]) :=
    drop_cursor d8 (by simp only [u32le_length])
  have d10 : data.drop
      (4 + key.length + 4 + value.length + 4 + um.length + 16 + 4 + meta.length) =
      u32le sid ++ [if sd then 1 else 0] :=
    drop_cursor d9 (by simp only [u32le_length])
  have ht : (data.take j).length = j := by
    rw [List.length_take]
    omega
  simp only [KV.Unmarshal]
  rw [ht]
  by_cases hc0 : j < 37
  · rw [if_pos hc0]
  · rw [if_neg hc0, readU32_take d0 (by omega), Nat.mod_eq_of_lt h1]
    simp only [Except.bind]
    by_cases hc1 : 4 + key.length > j
    · rw [if_pos hc1]
    · rw [if_neg hc1, readBytes_take d1 rfl (by omega) (by omega)]
      simp only [Except.bind]
      by_cases hc2 : 4 + key.length + 4 > j
      · rw [if_pos hc2]
      · rw [if_neg hc2, readU32_take d2 (by omega), Nat.mod_eq_of_lt h2]
        simp only [Except.bind]
        by_cases hc3 : 4 + key.length + 4 + value.length > j
        · rw [if_pos hc3]
        · rw [if_neg hc3, readBytes_take d3 rfl (by omega) (by omega)]
          simp only [Except.bind]
          by_cases hc4 : 4 + key.length + 4 + value.length + 4 > j
          · rw [if_pos hc4]
          · rw [if_neg hc4, readU32_take d4 (by omega), Nat.mod_eq_of_lt h3]
            simp only [Except.bind]
            by_cases hc5 : 4 + key.length + 4 + value.length + 4 + um.length > j
            · rw [if_pos hc5]
            · rw [if_neg hc5, readBytes_take d5 rfl (by omega) (by omega)]
              simp only [Except.bind]
              by_cases hc6 :
                  4 + key.length + 4 + value.length + 4 + um.length + 8 > j
              · rw [if_pos hc6]
              · rw [if_neg hc6, readU64_take d6 (by omega), Nat.mod_eq_of_lt h5]
                simp only [Except.bind]
                by_cases hc7 :
                    4 + key.length + 4 + value.length + 4 + um.length + 8 + 8 > j
                · rw [if_pos hc7]
                · rw [if_neg hc7, readU64_take d7 (by omega), Nat.mod_eq_of_lt h6]
                  simp only [Except.bind]
                  by_cases hc8 : 4 + key.length + 4 + value.length + 4 +
                      um.length + 16 + 4 > j
                  · rw [if_pos hc8]
                  · rw [if_neg hc8, readU32_take d8 (by omega),
                      Nat.mod_eq_of_lt h4]
                    simp only [Except.bind]
                    by_cases hc9 : 4 + key.length + 4 + value.length + 4 +
                        um.length + 16 + 4 + meta.length > j
                    · rw [if_pos hc9]
                    · rw [if_neg hc9, readBytes_take d9 rfl (by omega) (by omega)]
                      simp only [Except.bind]
                      by_cases hc10 : 4 + key.length + 4 + value.length + 4 +
                          um.length + 16 + 4 + meta.length + 4 > j
                      · rw [if_pos hc10]
                      · rw [if_neg hc10, readU32_take d10 (by omega),
                          Nat.mod_eq_of_lt h7]
                        simp only [Except.bind]
                        rw [if_pos (by omega)]

theorem mc_unmarshal_truncated (m : ManifestChange) (j : Nat)
    (hj : j < m.Marshal.length) :
    ManifestChange.Unmarshal (m.Marshal.take j) = .error .bufferTooSmall := by
  have hml : m.Marshal.length = 32 := by
    rw [mc_marshal_length]
    rfl
  have ht : (m.Marshal.take j).length = j := by
    rw [List.length_take]
    omega
  simp only [ManifestChange.Unmarshal]
  rw [ht, if_pos (by omega)]

theorem cks_unmarshal_truncated (c : Checksum) (j : Nat)
    (hj : j < c.Marshal.length) :
    Checksum.Unmarshal (c.Marshal.take j) = .error .bufferTooSmall := by
  have hml : c.Marshal.length = 12 := by
    rw [cks_marshal_length]
    rfl
  have ht : (c.Marshal.take j).length = j := by
    rw [List.length_take]
    omega
  simp only [Checksum.Unmarshal]
  rw [ht, if_pos (by omega)]

theorem dk_unmarshal_truncated (d : DataKey) (h : d.Valid) (j : Nat)
    (hj : j < d.Marshal.length) :
    DataKey.Unmarshal (d.Marshal.take j) = .error .bufferTooSmall := by
  obtain ⟨kid, dat, iv, ca⟩ := d
  obtain ⟨h1, h2, h3, h4, h5⟩ := h
  simp only [DataKey.Valid] at h1 h2 h3 h4 h5
  revert hj
  generalize hdata : DataKey.Marshal ⟨kid, dat, iv, ca⟩ = data
  intro hj
  have hlen : data.length = 24 + dat.length + iv.length := by
    rw [← hdata]
    simp only [DataKey.Marshal, List.length_append, u32le_length, u64le_length]
    omega
  have d0 : data.drop 0 = u64le kid ++ (u32le dat.length ++ (dat ++
      (u32le iv.length ++ (iv ++ u64le (u64ofInt64 ca))))) := by
    rw [List.drop_zero, ← hdata]
    simp [DataKey.Marshal]
  have d1 : data.drop 8 = u32le dat.length ++ (dat ++
      (u32le iv.length ++ (iv ++ u64le (u64ofInt64 ca)))) :=
    drop_cursor d0 (by simp only [u64le_length])
  have d2 : data.drop 12 = dat ++
      (u32le iv.length ++ (iv ++ u64le (u64ofInt64 ca))) :=
    drop_cursor d1 (by simp only [u32le_length])
  have d3 : data.drop (12 + dat.length) =
      u32le iv.length ++ (iv ++ u64le (u64ofInt64 ca)) :=
    drop_cursor d2 (by simp only [u32le_length])
  have d4 : data.drop (12 + dat.length + 4) = iv ++ u64le (u64ofInt64 ca) :=
    drop_cursor d3 (by simp only [u32le_length])
  have ht : (data.take j).length = j := by
    rw [List.length_take]
    omega
  simp only [DataKey.Unmarshal]
  rw [ht]
  by_cases hc0 : j < 24
  · rw [if_pos hc0]
  · rw [if_neg hc0, readU64_take d0 (by omega), Nat.mod_eq_of_lt h1]
    simp only [Except.bind]
    rw [readU32_take d1 (by omega), Nat.mod_eq_of_lt h2]
    simp only [Except.bind]
    by_cases hc1 : 12 + dat.length > j
    · rw [if_pos hc1]
    · rw [if_neg hc1, readBytes_take d2 rfl (by omega) (by omega)]
      simp only [Except.bind]
      by_cases hc2 : 12 + dat.length + 4 > j
      · rw [if_pos hc2]
      · rw [if_neg hc2, readU32_take d3 (by omega), Nat.mod_eq_of_lt h3]
        simp only [Except.bind]
        by_cases hc3 : 12 + dat.length + 4 + iv.length > j
        · rw [if_pos hc3]
        · rw [if_neg hc3, readBytes_take d4 rfl (by omega) (by omega)]
          simp only [Except.bind]
          rw [if_pos (by omega)]

theorem mtch_unmarshal_truncated (m : Match) (h : m.Valid) (j : Nat)
    (hj : j < m.Marshal.length) :
    Match.Unmarshal (m.Marshal.take j) = .error .bufferTooSmall := by
  obtain ⟨pfx, ign⟩ := m
  obtain ⟨h1, h2⟩ := h
  simp only [Match.Valid] at h1 h2
  revert hj
  generalize hdata : Match.Marshal ⟨pfx, ign⟩ = data
  intro hj
  have hlen : data.length = 8 + pfx.length + ign.length := by
    rw [← hdata]
    simp only [Match.Marshal, List.length_append, u32le_length]
    omega
  have d0 : data.drop 0 = u32le pfx.length ++ (pfx ++
      (u32le ign.length ++ ign)) := by
    rw [List.drop_zero, ← hdata]
    simp [Match.Marshal]
  have d1 : data.drop 4 = pfx ++ (u32le ign.length ++ ign) :=
    drop_cursor d0 (by simp only [u32le_length])
  have d2 : data.drop (4 + pfx.length) = u32le ign.length ++ ign :=
    drop_cursor d1 (by simp only [u32le_length])
  have ht : (data.take j).length = j := by
    rw [List.length_take]
    omega
  simp only [Match.Unmarshal]
  rw [ht]
  by_cases hc0 : j < 8
  · rw [if_pos hc0]
  · rw [if_neg hc0, readU32_take d0 (by omega), Nat.mod_eq_of_lt h1]
    simp only [Except.bind]
    by_cases hc1 : 4 + pfx.length > j
    · rw [if_pos hc1]
    · rw [if_neg hc1, readBytes_take d1 rfl (by omega) (by omega)]
      simp only [Except.bind]
      by_cases hc2 : 4 + pfx.length + 4 > j
      · rw [if_pos hc2]
      · rw [if_neg hc2, readU32_take d2 (by omega), Nat.mod_eq_of_lt h2]
        simp only [Except.bind]
        rw [if_pos (by omega)]

/-- Truncating inside the entry region makes the decode loop fail with
`bufferTooSmall` (a cut inside an entry is caught by the parent's bounds
check before the child ever sees it). -/
theorem kvlist_decodeLoop_trunc (kvs : List KV)
    (hv : ∀ kv ∈ kvs, kv.Valid ∧ kv.Size < 4294967296)
    (data tail : List Nat) (off k : Nat)
    (hd : data.drop off = encodeKVEntries kvs ++ tail)
    (hoffk : off ≤ k) (hk : k ≤ data.length)
    (hlt : k < off + (encodeKVEntries kvs).length) :
    KVList.decodeLoop (data.take k) kvs.length off = .error .bufferTooSmall := by
  induction kvs generalizing off tail with
  | nil =>
    simp only [encodeKVEntries, List.length_nil] at hlt
    omega
  | cons kv rest ih =>
    obtain ⟨hkv, hks⟩ := hv kv (List.mem_cons_self kv rest)
    have hv' : ∀ x ∈ rest, x.Valid ∧ x.Size < 4294967296 := fun x hx =>
      hv x (List.mem_cons_of_mem kv hx)
    have hd0 : data.drop off = u32le kv.Size ++ (kv.Marshal ++
        (encodeKVEntries rest ++ tail)) := by
      rw [hd]
      simp [encodeKVEntries]
    have hd1 : data.drop (off + 4) = kv.Marshal ++
        (encodeKVEntries rest ++ tail) :=
      drop_cursor hd0 (by simp only [u32le_length])
    have hd2 : data.drop (off + 4 + kv.Size) = encodeKVEntries rest ++ tail :=
      drop_cursor hd1 (by rw [kv_marshal_length])
    have hlen : data.length - off =
        4 + kv.Size + (encodeKVEntries rest).length + tail.length := by
      rw [← List.length_drop, hd0]
      simp only [List.length_append, u32le_length, kv_marshal_length]
      omega
    have hEnc : (encodeKVEntries (kv :: rest)).length =
        4 + kv.Size + (encodeKVEntries rest).length := by
      simp only [encodeKVEntries, List.length_append, u32le_length,
        kv_marshal_length]
    have ht : (data.take k).length = k := by
      rw [List.length_take]
      omega
    simp only [List.length_cons, KVList.decodeLoop]
    rw [ht]
    by_cases hc1 : off + 4 > k
    · rw [if_pos hc1]
    · rw [if_neg hc1, readU32_take hd0 (by omega), Nat.mod_eq_of_lt hks]
      simp only [Except.bind]
      by_cases hc2 : off + 4 + kv.Size > k
      · rw [if_pos hc2]
      · rw [if_neg hc2,
          readBytes_take hd1 (kv_marshal_length kv) (by omega) (by omega)]
        simp only [Except.bind]
        rw [kv_unmarshal_marshal kv hkv]
        simp only [Except.bind]
        rw [ih hv' tail (off + 4 + kv.Size) hd2 (by omega) (by omega)]

theorem mcs_decodeLoop_trunc (cs : List ManifestChange)
    (hv : ∀ c ∈ cs, c.Valid)
    (data tail : List Nat) (off k : Nat)
    (hd : data.drop off = encodeMCEntries cs ++ tail)
    (hoffk : off ≤ k) (hk : k ≤ data.length)
    (hlt : k < off + (encodeMCEntries cs).length) :
    ManifestChangeSet.decodeLoop (data.take k) cs.length off =
      .error .bufferTooSmall := by
  induction cs generalizing off tail with
  | nil =>
    simp only [encodeMCEntries, List.length_nil] at hlt
    omega
  | cons c rest ih =>
    have hc := hv c (List.mem_cons_self c rest)
    have hv' : ∀ x ∈ rest, x.Valid := fun x hx =>
      hv x (List.mem_cons_of_mem c hx)
    have hml : c.Marshal.length = 32 := by
      rw [mc_marshal_length]
      rfl
    have hd0 : data.drop off = u32le c.Marshal.length ++ (c.Marshal ++
        (encodeMCEntries rest ++ tail)) := by
      rw [hd]
      simp [encodeMCEntries]
    have hd1 : data.drop (off + 4) = c.Marshal ++
        (encodeMCEntries rest ++ tail) :=
      drop_cursor hd0 (by simp only [u32le_length])
    have hd2 : data.drop (off + 4 + c.Marshal.length) =
        encodeMCEntries rest ++ tail :=
      drop_cursor hd1 rfl
    have hlen : data.length - off =
        4 + 32 + (encodeMCEntries rest).length + tail.length := by
      rw [← List.length_drop, hd0]
      simp only [List.length_append, u32le_length, hml]
      omega
    have hEnc : (encodeMCEntries (c :: rest)).length =
        4 + 32 + (encodeMCEntries rest).length := by
      simp only [encodeMCEntries, List.length_append, u32le_length, hml]
    have ht : (data.take k).length = k := by
      rw [List.length_take]
      omega
    simp only [List.length_cons, ManifestChangeSet.decodeLoop]
    rw [ht]
    by_cases hc1 : off + 4 > k
    · rw [if_pos hc1]
    · rw [if_neg hc1, readU32_take hd0 (by omega),
        Nat.mod_eq_of_lt (by rw [hml]; omega)]
      simp only [Except.bind]
      by_cases hc2 : off + 4 + c.Marshal.length > k
      · rw [if_pos hc2]
      · rw [if_neg hc2, readBytes_take hd1 rfl (by omega) (by omega)]
        simp only [Except.bind]
        rw [mc_unmarshal_marshal c hc]
        simp only [Except.bind]
        rw [ih hv' tail (off + 4 + c.Marshal.length) hd2 (by omega)
          (by rw [hml] at hc2 ⊢; omega)]

theorem kvlist_unmarshal_truncated (l : KVList) (h : l.Valid) (j : Nat)
    (hj : j < l.Marshal.length) :
    KVList.Unmarshal (l.Marshal.take j) = .error .bufferTooSmall := by
  obtain ⟨kvs, aref⟩ := l
  obtain ⟨hc, ha, hv⟩ := h
  simp only [KVList.Valid] at hc ha hv
  revert hj
  generalize hdata : KVList.Marshal ⟨kvs, aref⟩ = data
  intro hj
  have d0 : data.drop 0 = u32le kvs.length ++
      (encodeKVEntries kvs ++ u64le aref) := by
    rw [List.drop_zero, ← hdata]
    simp [KVList.Marshal]
  have d1 : data.drop 4 = encodeKVEntries kvs ++ u64le aref :=
    drop_cursor d0 (by simp only [u32le_length])
  have hlen : data.length = 4 + (encodeKVEntries kvs).length + 8 := by
    rw [← hdata]
    simp only [KVList.Marshal, List.length_append, u32le_length, u64le_length]
  have ht : (data.take j).length = j := by
    rw [List.length_take]
    omega
  simp only [KVList.Unmarshal]
  rw [ht]
  by_cases hc0 : j < 12
  · rw [if_pos hc0]
  · rw [if_neg hc0, readU32_take d0 (by omega), Nat.mod_eq_of_lt hc]
    simp only [Except.bind]
    by_cases hc1 : j < 4 + (encodeKVEntries kvs).length
    · rw [kvlist_decodeLoop_trunc kvs hv data (u64le aref) 4 j d1 (by omega)
        (by omega) (by omega)]
    · have hdp : (data.take j).drop 4 = encodeKVEntries kvs ++
          (u64le aref).take (j - 4 - (encodeKVEntries kvs).length) := by
        rw [take_cursor, d1, take_append_long (by omega)]
      rw [kvlist_decodeLoop_ok kvs hv (data.take j)
        ((u64le aref).take (j - 4 - (encodeKVEntries kvs).length)) 4 hdp]
      simp only [Except.bind]
      rw [if_pos (by omega)]

theorem mcs_unmarshal_truncated (m : ManifestChangeSet)
    (h : m.Valid) (j : Nat) (hj : j < m.Marshal.length) :
    ManifestChangeSet.Unmarshal (m.Marshal.take j) =
      .error .bufferTooSmall := by
  obtain ⟨cs⟩ := m
  obtain ⟨hc, hv⟩ := h
  simp only [ManifestChangeSet.Valid] at hc hv
  revert hj
  generalize hdata : ManifestChangeSet.Marshal ⟨cs⟩ = data
  intro hj
  have d0 : data.drop 0 = u32le cs.length ++ (encodeMCEntries cs ++ []) := by
    rw [List.drop_zero, ← hdata]
    simp [ManifestChangeSet.Marshal]
  have d1 : data.drop 4 = encodeMCEntries cs ++ [] :=
    drop_cursor d0 (by simp only [u32le_length])
  have hlen : data.length = 4 + (encodeMCEntries cs).length := by
    rw [← hdata]
    simp only [ManifestChangeSet.Marshal, List.length_append, u32le_length]
  have ht : (data.take j).length = j := by
    rw [List.length_take]
    omega
  simp only [ManifestChangeSet.Unmarshal]
  rw [ht]
  by_cases hc0 : j < 4
  · rw [if_pos hc0]
  · rw [if_neg hc0, readU32_take d0 (by omega), Nat.mod_eq_of_lt hc]
    simp only [Except.bind]
    rw [mcs_decodeLoop_trunc cs hv data [] 4 j d1 (by omega)
      (by omega) (by omega)]

end Pb

namespace Pb

/-! Decode classification: on an arbitrary buffer every decode either
succeeds or fails with `bufferTooSmall` — no out-of-bounds access
(`panicOOB`) and no `invalidData` on any path. -/

theorem readU32_ok {data : List Nat} {off : Nat} (h : off + 4 ≤ data.length) :
    readU32 data off = .ok (leVal ((data.drop off).take 4)) := by
  rw [readU32, if_pos h]

theorem readU64_ok {data : List Nat} {off : Nat} (h : off + 8 ≤ data.length) :
    readU64 data off = .ok (leVal ((data.drop off).take 8)) := by
  rw [readU64, if_pos h]

theorem readU8_ok {data : List Nat} {off : Nat} (h : off < data.length) :
    readU8 data off = .ok ((data.drop off).headD 0) := by
  rw [readU8, if_pos h]

theorem readBytes_ok {data : List Nat} {off n : Nat}
    (h : off + n ≤ data.length) :
    readBytes data off n = .ok ((data.drop off).take n) := by
  rw [readBytes, if_pos h]

theorem kv_unmarshal_classify (data : List Nat) :
    (∃ r, KV.Unmarshal data = .ok r) ∨
      KV.Unmarshal data = .error .bufferTooSmall := by
  simp only [KV.Unmarshal]
  by_cases hc0 : data.length < 37
  · rw [if_pos hc0]
    exact Or.inr rfl
  · rw [if_neg hc0, readU32_ok (by omega)]
    simp only [Except.bind]
    generalize leVal ((data.drop 0).take 4) = keyLen
    by_cases hc1 : 4 + keyLen > data.length
    · rw [if_pos hc1]
      exact Or.inr rfl
    · rw [if_neg hc1, readBytes_ok (by omega)]
      simp only [Except.bind]
      by_cases hc2 : 4 + keyLen + 4 > data.length
      · rw [if_pos hc2]
        exact Or.inr rfl
      · rw [if_neg hc2, readU32_ok (by omega)]
        simp only [Except.bind]
        generalize leVal ((data.drop (4 + keyLen)).take 4) = valueLen
        by_cases hc3 : 4 + keyLen + 4 + valueLen > data.length
        · rw [if_pos hc3]
          exact Or.inr rfl
        · rw [if_neg hc3, readBytes_ok (by omega)]
          simp only [Except.bind]
          by_cases hc4 : 4 + keyLen + 4 + valueLen + 4 > data.length
          · rw [if_pos hc4]
            exact Or.inr rfl
          · rw [if_neg hc4, readU32_ok (by omega)]
            simp only [Except.bind]
            generalize leVal ((data.drop (4 + keyLen + 4 + valueLen)).take 4) =
              userMetaLen
            by_cases hc5 :
                4 + keyLen + 4 + valueLen + 4 + userMetaLen > data.length
            · rw [if_pos hc5]
              exact Or.inr rfl
            · rw [if_neg hc5, readBytes_ok (by omega)]
              simp only [Except.bind]
              by_cases hc6 : 4 + keyLen + 4 + valueLen + 4 + userMetaLen + 8 >
                  data.length
              · rw [if_pos hc6]
                exact Or.inr rfl
              · rw [if_neg hc6, readU64_ok (by omega)]
                simp only [Except.bind]
                by_cases hc7 : 4 + keyLen + 4 + valueLen + 4 + userMetaLen +
                    8 + 8 > data.length
                · rw [if_pos hc7]
                  exact Or.inr rfl
                · rw [if_neg hc7, readU64_ok (by omega)]
                  simp only [Except.bind]
                  by_cases hc8 : 4 + keyLen + 4 + valueLen + 4 + userMetaLen +
                      16 + 4 > data.length
                  · rw [if_pos hc8]
                    exact Or.inr rfl
                  · rw [if_neg hc8, readU32_ok (by omega)]
                    simp only [Except.bind]
                    generalize leVal ((data.drop (4 + keyLen + 4 + valueLen +
                      4 + userMetaLen + 16)).take 4) = metaLen
                    by_cases hc9 : 4 + keyLen + 4 + valueLen + 4 +
                        userMetaLen + 16 + 4 + metaLen > data.length
                    · rw [if_pos hc9]
                      exact Or.inr rfl
                    · rw [if_neg hc9, readBytes_ok (by omega)]
                      simp only [Except.bind]
                      by_cases hc10 : 4 + keyLen + 4 + valueLen + 4 +
                          userMetaLen + 16 + 4 + metaLen + 4 > data.length
                      · rw [if_pos hc10]
                        exact Or.inr rfl
                      · rw [if_neg hc10, readU32_ok (by omega)]
                        simp only [Except.bind]
                        by_cases hc11 : 4 + keyLen + 4 + valueLen + 4 +
                            userMetaLen + 16 + 4 + metaLen + 4 + 1 >
                            data.length
                        · rw [if_pos hc11]
                          exact Or.inr rfl
                        · rw [if_neg hc11, readU8_ok (by omega)]
                          simp only [Except.bind]
                          exact Or.inl ⟨_, rfl⟩

theorem mc_unmarshal_classify (data : List Nat) :
    (∃ r, ManifestChange.Unmarshal data = .ok r) ∨
      ManifestChange.Unmarshal data = .error .bufferTooSmall := by
  simp only [ManifestChange.Unmarshal]
  by_cases hc0 : data.length < 32
  · rw [if_pos hc0]
    exact Or.inr rfl
  · rw [if_neg hc0, readU64_ok (by omega), readU32_ok (by omega),
      readU32_ok (by omega), readU64_ok (by omega), readU32_ok (by omega),
      readU32_ok (by omega)]
    simp only [Except.bind]
    exact Or.inl ⟨_, rfl⟩

theorem cks_unmarshal_classify (data : List Nat) :
    (∃ r, Checksum.Unmarshal data = .ok r) ∨
      Checksum.Unmarshal data = .error .bufferTooSmall := by
  simp only [Checksum.Unmarshal]
  by_cases hc0 : data.length < 12
  · rw [if_pos hc0]
    exact Or.inr rfl
  · rw [if_neg hc0, readU32_ok (by omega), readU64_ok (by omega)]
    simp only [Except.bind]
    exact Or.inl ⟨_, rfl⟩

theorem dk_unmarshal_classify (data : List Nat) :
    (∃ r, DataKey.Unmarshal data = .ok r) ∨
      DataKey.Unmarshal data = .error .bufferTooSmall := by
  simp only [DataKey.Unmarshal]
  by_cases hc0 : data.length < 24
  · rw [if_pos hc0]
    exact Or.inr rfl
  · rw [if_neg hc0, readU64_ok (by omega), readU32_ok (by omega)]
    simp only [Except.bind]
    generalize leVal ((data.drop 8).take 4) = dataLen
    by_cases hc1 : 12 + dataLen > data.length
    · rw [if_pos hc1]
      exact Or.inr rfl
    · rw [if_neg hc1, readBytes_ok (by omega)]
      simp only [Except.bind]
      by_cases hc2 : 12 + dataLen + 4 > data.length
      · rw [if_pos hc2]
        exact Or.inr rfl
      · rw [if_neg hc2, readU32_ok (by omega)]
        simp only [Except.bind]
        generalize leVal ((data.drop (12 + dataLen)).take 4) = ivLen
        by_cases hc3 : 12 + dataLen + 4 + ivLen > data.length
        · rw [if_pos hc3]
          exact Or.inr rfl
        · rw [if_neg hc3, readBytes_ok (by omega)]
          simp only [Except.bind]
          by_cases hc4 : 12 + dataLen + 4 + ivLen + 8 > data.length
          · rw [if_pos hc4]
            exact Or.inr rfl
          · rw [if_neg hc4, readU64_ok (by omega)]
            simp only [Except.bind]
            exact Or.inl ⟨_, rfl⟩

theorem mtch_unmarshal_classify (data : List Nat) :
    (∃ r, Match.Unmarshal data = .ok r) ∨
      Match.Unmarshal data = .error .bufferTooSmall := by
  simp only [Match.Unmarshal]
  by_cases hc0 : data.length < 8
  · rw [if_pos hc0]
    exact Or.inr rfl
  · rw [if_neg hc0, readU32_ok (by omega)]
    simp only [Except.bind]
    generalize leVal ((data.drop 0).take 4) = prefixLen
    by_cases hc1 : 4 + prefixLen > data.length
    · rw [if_pos hc1]
      exact Or.inr rfl
    · rw [if_neg hc1, readBytes_ok (by omega)]
      simp only [Except.bind]
      by_cases hc2 : 4 + prefixLen + 4 > data.length
      · rw [if_pos hc2]
        exact Or.inr rfl
      · rw [if_neg hc2, readU32_ok (by omega)]
        simp only [Except.bind]
        generalize leVal ((data.drop (4 + prefixLen)).take 4) = ignLen
        by_cases hc3 : 4 + prefixLen + 4 + ignLen > data.length
        · rw [if_pos hc3]
          exact Or.inr rfl
        · rw [if_neg hc3, readBytes_ok (by omega)]
          simp only [Except.bind]
          exact Or.inl ⟨_, rfl⟩

theorem kvlist_decodeLoop_classify (data : List Nat) (n off : Nat) :
    (∃ r, KVList.decodeLoop data n off = .ok r) ∨
      KVList.decodeLoop data n off = .error .bufferTooSmall := by
  induction n generalizing off with
  | zero => exact Or.inl ⟨([], off), rfl⟩
  | succ n ih =>
    simp only [KVList.decodeLoop]
    by_cases hc1 : off + 4 > data.length
    · rw [if_pos hc1]
      exact Or.inr rfl
    · rw [if_neg hc1, readU32_ok (by omega)]
      simp only [Except.bind]
      generalize leVal ((data.drop off).take 4) = kvSize
      by_cases hc2 : off + 4 + kvSize > data.length
      · rw [if_pos hc2]
        exact Or.inr rfl
      · rw [if_neg hc2, readBytes_ok (by omega)]
        simp only [Except.bind]
        rcases kv_unmarshal_classify ((data.drop (off + 4)).take kvSize) with
          ⟨kv, hkv⟩ | hkv
        · rw [hkv]
          simp only [Except.bind]
          rcases ih (off + 4 + kvSize) with ⟨r, hr⟩ | hr
          · rw [hr]
            simp only [Except.bind]
            exact Or.inl ⟨_, rfl⟩
          · rw [hr]
            exact Or.inr rfl
        · rw [hkv]
          exact Or.inr rfl

theorem kvlist_unmarshal_classify (data : List Nat) :
    (∃ r, KVList.Unmarshal data = .ok r) ∨
      KVList.Unmarshal data = .error .bufferTooSmall := by
  simp only [KVList.Unmarshal]
  by_cases hc0 : data.length < 12
  · rw [if_pos hc0]
    exact Or.inr rfl
  · rw [if_neg hc0, readU32_ok (by omega)]
    simp only [Except.bind]
    rcases kvlist_decodeLoop_classify data (leVal ((data.drop 0).take 4)) 4 with
      ⟨r, hr⟩ | hr
    · rw [hr]
      simp only [Except.bind]
      by_cases hc1 : r.2 + 8 > data.length
      · rw [if_pos hc1]
        exact Or.inr rfl
      · rw [if_neg hc1, readU64_ok (by omega)]
        simp only [Except.bind]
        exact Or.inl ⟨_, rfl⟩
    · rw [hr]
      exact Or.inr rfl

theorem mcs_decodeLoop_classify (data : List Nat) (n off : Nat) :
    (∃ r, ManifestChangeSet.decodeLoop data n off = .ok r) ∨
      ManifestChangeSet.decodeLoop data n off = .error .bufferTooSmall := by
  induction n generalizing off with
  | zero => exact Or.inl ⟨([], off), rfl⟩
  | succ n ih =>
    simp only [ManifestChangeSet.decodeLoop]
    by_cases hc1 : off + 4 > data.length
    · rw [if_pos hc1]
      exact Or.inr rfl
    · rw [if_neg hc1, readU32_ok (by omega)]
      simp only [Except.bind]
      generalize leVal ((data.drop off).take 4) = changeSize
      by_cases hc2 : off + 4 + changeSize > data.length
      · rw [if_pos hc2]
        exact Or.inr rfl
      · rw [if_neg hc2, readBytes_ok (by omega)]
        simp only [Except.bind]
        rcases mc_unmarshal_classify
            ((data.drop (off + 4)).take changeSize) with ⟨c, hcm⟩ | hcm
        · rw [hcm]
          simp only [Except.bind]
          rcases ih (off + 4 + changeSize) with ⟨r, hr⟩ | hr
          · rw [hr]
            simp only [Except.bind]
            exact Or.inl ⟨_, rfl⟩
          · rw [hr]
            exact Or.inr rfl
        · rw [hcm]
          exact Or.inr rfl

theorem mcs_unmarshal_classify (data : List Nat) :
    (∃ r, ManifestChangeSet.Unmarshal data = .ok r) ∨
      ManifestChangeSet.Unmarshal data = .error .bufferTooSmall := by
  simp only [ManifestChangeSet.Unmarshal]
  by_cases hc0 : data.length < 4
  · rw [if_pos hc0]
    exact Or.inr rfl
  · rw [if_neg hc0, readU32_ok (by omega)]
    simp only [Except.bind]
    rcases mcs_decodeLoop_classify data
        (leVal ((data.drop 0).take 4)) 4 with ⟨r, hr⟩ | hr
    · rw [hr]
      simp only [Except.bind]
      exact Or.inl ⟨_, rfl⟩
    · rw [hr]
      exact Or.inr rfl

end Pb

namespace Pb

/-! Error propagation in the composite decoders: when the child record
of an entry fails to decode, the composite's `Unmarshal` returns that
same child error, unmodified.  (The only error a child can produce is
`bufferTooSmall`, by the classification lemmas.)  On the encode side a
child's `MarshalToSizedBuffer` never fails inside `KVList.Marshal`,
because the parent hands it a slice of exactly `Size` bytes. -/

theorem KV.marshalToSizedBuffer_ok (kv : KV) (buf : List Nat)
    (h : ¬ buf.length < kv.Size) :
    kv.MarshalToSizedBuffer buf =
      .ok (kv.Size, kv.Marshal ++ buf.drop kv.Size) := by
  rw [KV.MarshalToSizedBuffer, if_neg h]

theorem kvlist_decodeLoop_succ (data : List Nat) (n off : Nat) :
    KVList.decodeLoop data (n + 1) off =
      (if off + 4 > data.length then .error .bufferTooSmall else
      (readU32 data off).bind fun kvSize =>
      if off + 4 + kvSize > data.length then .error .bufferTooSmall else
      (readBytes data (off + 4) kvSize).bind fun chunk =>
      (KV.Unmarshal chunk).bind fun kv =>
      (KVList.decodeLoop data n (off + 4 + kvSize)).bind fun res =>
      .ok (kv :: res.1, res.2)) := rfl

theorem mcs_decodeLoop_succ (data : List Nat) (n off : Nat) :
    ManifestChangeSet.decodeLoop data (n + 1) off =
      (if off + 4 > data.length then .error .bufferTooSmall else
      (readU32 data off).bind fun changeSize =>
      if off + 4 + changeSize > data.length then .error .bufferTooSmall else
      (readBytes data (off + 4) changeSize).bind fun chunk =>
      (ManifestChange.Unmarshal chunk).bind fun c =>
      (ManifestChangeSet.decodeLoop data n (off + 4 + changeSize)).bind fun res =>
      .ok (c :: res.1, res.2)) := rfl

theorem kvlist_decodeLoop_child_error (kvs : List KV)
    (hv : ∀ kv ∈ kvs, kv.Valid ∧ kv.Size < 4294967296)
    (data chunk tail : List Nat) (hcl : chunk.length < 4294967296) (off : Nat)
    (hd : data.drop off = encodeKVEntries kvs ++
      (u32le chunk.length ++ (chunk ++ tail)))
    (hche : KV.Unmarshal chunk = .error .bufferTooSmall) :
    KVList.decodeLoop data (kvs.length + 1) off = .error .bufferTooSmall := by
  induction kvs generalizing off with
  | nil =>
    have hd0 : data.drop off = u32le chunk.length ++ (chunk ++ tail) := by
      rw [hd]
      simp [encodeKVEntries]
    have hd1 : data.drop (off + 4) = chunk ++ tail :=
      drop_cursor hd0 (by simp only [u32le_length])
    have hlen : data.length - off = 4 + chunk.length + tail.length := by
      rw [← List.length_drop, hd0]
      simp only [List.length_append, u32le_length]
      omega
    simp only [List.length_nil, KVList.decodeLoop]
    rw [if_neg (by omega), readU32_eq hd0, Nat.mod_eq_of_lt hcl]
    simp only [Except.bind]
    rw [if_neg (by omega), readBytes_eq hd1 rfl (by omega)]
    simp only [Except.bind]
    rw [hche]
  | cons kv rest ih =>
    obtain ⟨hkv, hks⟩ := hv kv (List.mem_cons_self kv rest)
    have hv' : ∀ x ∈ rest, x.Valid ∧ x.Size < 4294967296 := fun x hx =>
      hv x (List.mem_cons_of_mem kv hx)
    have hd0 : data.drop off = u32le kv.Size ++ (kv.Marshal ++
        (encodeKVEntries rest ++ (u32le chunk.length ++ (chunk ++ tail)))) := by
      rw [hd]
      simp [encodeKVEntries]
    have hd1 : data.drop (off + 4) = kv.Marshal ++
        (encodeKVEntries rest ++ (u32le chunk.length ++ (chunk ++ tail))) :=
      drop_cursor hd0 (by simp only [u32le_length])
    have hd2 : data.drop (off + 4 + kv.Size) =
        encodeKVEntries rest ++ (u32le chunk.length ++ (chunk ++ tail)) :=
      drop_cursor hd1 (by rw [kv_marshal_length])
    have hlen : data.length - off = 4 + kv.Size +
        (encodeKVEntries rest).length + 4 + chunk.length + tail.length := by
      rw [← List.length_drop, hd0]
      simp only [List.length_append, u32le_length, kv_marshal_length]
      omega
    rw [kvlist_decodeLoop_succ]
    rw [if_neg (by omega), readU32_eq hd0, Nat.mod_eq_of_lt hks]
    simp only [Except.bind]
    rw [if_neg (by omega), readBytes_eq hd1 (kv_marshal_length kv) (by omega)]
    simp only [Except.bind]
    rw [kv_unmarshal_marshal kv hkv]
    simp only [Except.bind, List.length_cons]
    rw [ih hv' (off + 4 + kv.Size) hd2]

theorem kvlist_unmarshal_child_error (kvs : List KV)
    (hv : ∀ kv ∈ kvs, kv.Valid ∧ kv.Size < 4294967296)
    (hn : kvs.length + 1 < 4294967296)
    (chunk tail : List Nat) (hcl : chunk.length < 4294967296) (e : DErr)
    (hche : KV.Unmarshal chunk = .error e) :
    KVList.Unmarshal (u32le (kvs.length + 1) ++ (encodeKVEntries kvs ++
      (u32le chunk.length ++ (chunk ++ tail)))) = .error e := by
  have he : e = .bufferTooSmall := by
    rcases kv_unmarshal_classify chunk with ⟨r, hr⟩ | hr
    · rw [hr] at hche
      exact Except.noConfusion hche
    · rw [hr] at hche
      injection hche with hx
      exact hx.symm
  subst he
  generalize hdata : u32le (kvs.length + 1) ++ (encodeKVEntries kvs ++
    (u32le chunk.length ++ (chunk ++ tail))) = data
  have d0 : data.drop 0 = u32le (kvs.length + 1) ++ (encodeKVEntries kvs ++
      (u32le chunk.length ++ (chunk ++ tail))) := by
    rw [List.drop_zero, ← hdata]
  have d1 : data.drop 4 = encodeKVEntries kvs ++
      (u32le chunk.length ++ (chunk ++ tail)) :=
    drop_cursor d0 (by simp only [u32le_length])
  have hlen : data.length = 4 + ((encodeKVEntries kvs).length +
      (4 + (chunk.length + tail.length))) := by
    rw [← hdata]
    simp only [List.length_append, u32le_length]
  simp only [KVList.Unmarshal]
  by_cases hc0 : data.length < 12
  · rw [if_pos hc0]
  · rw [if_neg hc0, readU32_eq d0, Nat.mod_eq_of_lt hn]
    simp only [Except.bind]
    rw [kvlist_decodeLoop_child_error kvs hv data chunk tail hcl 4 d1 hche]

theorem mcs_decodeLoop_child_error (cs : List ManifestChange)
    (hv : ∀ c ∈ cs, c.Valid)
    (data chunk tail : List Nat) (hcl : chunk.length < 4294967296) (off : Nat)
    (hd : data.drop off = encodeMCEntries cs ++
      (u32le chunk.length ++ (chunk ++ tail)))
    (hche : ManifestChange.Unmarshal chunk = .error .bufferTooSmall) :
    ManifestChangeSet.decodeLoop data (cs.length + 1) off =
      .error .bufferTooSmall := by
  induction cs generalizing off with
  | nil =>
    have hd0 : data.drop off = u32le chunk.length ++ (chunk ++ tail) := by
      rw [hd]
      simp [encodeMCEntries]
    have hd1 : data.drop (off + 4) = chunk ++ tail :=
      drop_cursor hd0 (by simp only [u32le_length])
    have hlen : data.length - off = 4 + chunk.length + tail.length := by
      rw [← List.length_drop, hd0]
      simp only [List.length_append, u32le_length]
      omega
    simp only [List.length_nil, ManifestChangeSet.decodeLoop]
    rw [if_neg (by omega), readU32_eq hd0, Nat.mod_eq_of_lt hcl]
    simp only [Except.bind]
    rw [if_neg (by omega), readBytes_eq hd1 rfl (by omega)]
    simp only [Except.bind]
    rw [hche]
  | cons c rest ih =>
    have hc := hv c (List.mem_cons_self c rest)
    have hv' : ∀ x ∈ rest, x.Valid := fun x hx =>
      hv x (List.mem_cons_of_mem c hx)
    have hml : c.Marshal.length = 32 := by
      rw [mc_marshal_length]
      rfl
    have hd0 : data.drop off = u32le c.Marshal.length ++ (c.Marshal ++
        (encodeMCEntries rest ++ (u32le chunk.length ++ (chunk ++ tail)))) := by
      rw [hd]
      simp [encodeMCEntries]
    have hd1 : data.drop (off + 4) = c.Marshal ++
        (encodeMCEntries rest ++ (u32le chunk.length ++ (chunk ++ tail))) :=
      drop_cursor hd0 (by simp only [u32le_length])
    have hd2 : data.drop (off + 4 + c.Marshal.length) =
        encodeMCEntries rest ++ (u32le chunk.length ++ (chunk ++ tail)) :=
      drop_cursor hd1 rfl
    have hlen : data.length - off = 4 + 32 +
        (encodeMCEntries rest).length + 4 + chunk.length + tail.length := by
      rw [← List.length_drop, hd0]
      simp only [List.length_append, u32le_length, hml]
      omega
    rw [mcs_decodeLoop_succ]
    rw [if_neg (by omega), readU32_eq hd0,
      Nat.mod_eq_of_lt (by rw [hml]; omega)]
    simp only [Except.bind]
    rw [if_neg (by rw [hml]; omega), readBytes_eq hd1 rfl (by omega)]
    simp only [Except.bind]
    rw [mc_unmarshal_marshal c hc]
    simp only [Except.bind, List.length_cons]
    rw [ih hv' (off + 4 + c.Marshal.length) hd2]

theorem mcs_unmarshal_child_error (cs : List ManifestChange)
    (hv : ∀ c ∈ cs, c.Valid) (hn : cs.length + 1 < 4294967296)
    (chunk tail : List Nat) (hcl : chunk.length < 4294967296) (e : DErr)
    (hche : ManifestChange.Unmarshal chunk = .error e) :
    ManifestChangeSet.Unmarshal (u32le (cs.length + 1) ++ (encodeMCEntries cs ++
      (u32le chunk.length ++ (chunk ++ tail)))) = .error e := by
  have he : e = .bufferTooSmall := by
    rcases mc_unmarshal_classify chunk with ⟨r, hr⟩ | hr
    · rw [hr] at hche
      exact Except.noConfusion hche
    · rw [hr] at hche
      injection hche with hx
      exact hx.symm
  subst he
  generalize hdata : u32le (cs.length + 1) ++ (encodeMCEntries cs ++
    (u32le chunk.length ++ (chunk ++ tail))) = data
  have d0 : data.drop 0 = u32le (cs.length + 1) ++ (encodeMCEntries cs ++
      (u32le chunk.length ++ (chunk ++ tail))) := by
    rw [List.drop_zero, ← hdata]
  have d1 : data.drop 4 = encodeMCEntries cs ++
      (u32le chunk.length ++ (chunk ++ tail)) :=
    drop_cursor d0 (by simp only [u32le_length])
  have hlen : data.length = 4 + ((encodeMCEntries cs).length +
      (4 + (chunk.length + tail.length))) := by
    rw [← hdata]
    simp only [List.length_append, u32le_length]
  simp only [ManifestChangeSet.Unmarshal]
  by_cases hc0 : data.length < 4
  · rw [if_pos hc0]
  · rw [if_neg hc0, readU32_eq d0, Nat.mod_eq_of_lt hn]
    simp only [Except.bind]
    rw [mcs_decodeLoop_child_error cs hv data chunk tail hcl 4
      d1 hche]

end Pb

namespace Pb

theorem allocCopy_ext (s : Store) (src : Option Nat) :
    ∃ ext, (allocCopy s src).1 = s ++ ext := by
  cases src with
  | none => exact ⟨[], by simp [allocCopy]⟩
  | some a => exact ⟨[Store.read s a], rfl⟩

theorem allocCopy_read (s : Store) (src : Option Nat) :
    readField (allocCopy s src).1 (allocCopy s src).2 = readField s src := by
  cases src with
  | none => rfl
  | some a =>
    show readField (s ++ [Store.read s a]) (some s.length) =
      some (Store.read s a)
    simp only [readField, Store.read, Option.some.injEq]
    rw [List.getD_append_right _ _ _ _ (le_refl _)]
    simp

theorem allocCopy_fresh (s : Store) (src : Option Nat) (a' : Nat)
    (h : (allocCopy s src).2 = some a') :
    s.length ≤ a' ∧ a' < (allocCopy s src).1.length := by
  cases src with
  | none => exact Option.noConfusion h
  | some a =>
    injection h with h
    subst h
    constructor
    · exact le_refl _
    · simp [allocCopy]

theorem readField_append (s ext : Store) (f : Option Nat)
    (h : ∀ a, f = some a → a < s.length) :
    readField (s ++ ext) f = readField s f := by
  cases f with
  | none => rfl
  | some a =>
    simp only [readField, Store.read, Option.some.injEq]
    rw [List.getD_append _ _ _ _ (h a rfl)]

theorem read_writeByte_ne (s : Store) (a i b a' : Nat) (h : a' ≠ a) :
    Store.read (Store.writeByte s a i b) a' = Store.read s a' := by
  simp only [Store.read, Store.writeByte]
  simp [List.getD, List.getElem?_set_ne (fun hh => h hh.symm)]

theorem readField_writeByte_of_lower (s' : Store) (f : Option Nat) (a : Nat)
    (hlow : ∀ a', f = some a' → a < a') (i b : Nat) :
    readField (Store.writeByte s' a i b) f = readField s' f := by
  cases f with
  | none => rfl
  | some a' =>
    simp only [readField, Option.some.injEq]
    exact read_writeByte_ne s' a i b a' (by have := hlow a' rfl; omega)

/-- `KV.Clone` on a non-nil receiver: the clone's fields read back
equal to the original's at the moment of cloning, and mutating any
byte of any pre-existing array (in particular any array the original's
fields point at) is not observable through the clone — the clone's
cells are fresh. -/
theorem KV.cloneRef_spec (s : Store) (k : KVRef) (hwf : KVRef.Wf s k) :
    ∃ s' c,
      KV.CloneRef s (some k) = (s', some c) ∧
      readField s' c.Key = readField s k.Key ∧
      readField s' c.Value = readField s k.Value ∧
      readField s' c.UserMeta = readField s k.UserMeta ∧
      readField s' c.Meta = readField s k.Meta ∧
      c.Version = k.Version ∧ c.ExpiresAt = k.ExpiresAt ∧
      c.StreamId = k.StreamId ∧ c.StreamDone = k.StreamDone ∧
      (∀ a, a < s.length → ∀ i b,
        readField (Store.writeByte s' a i b) c.Key = readField s' c.Key ∧
        readField (Store.writeByte s' a i b) c.Value = readField s' c.Value ∧
        readField (Store.writeByte s' a i b) c.UserMeta =
          readField s' c.UserMeta ∧
        readField (Store.writeByte s' a i b) c.Meta = readField s' c.Meta) := by
  obtain ⟨hwK, hwV, hwU, hwM⟩ := hwf
  obtain ⟨x1, hx1⟩ := allocCopy_ext s k.Key
  obtain ⟨x2, hx2⟩ := allocCopy_ext (allocCopy s k.Key).1 k.Value
  obtain ⟨x3, hx3⟩ :=
    allocCopy_ext (allocCopy (allocCopy s k.Key).1 k.Value).1 k.UserMeta
  obtain ⟨x4, hx4⟩ := allocCopy_ext
    (allocCopy (allocCopy (allocCopy s k.Key).1 k.Value).1 k.UserMeta).1 k.Meta
  have hs1 : s.length ≤ (allocCopy s k.Key).1.length := by
    rw [hx1]
    simp
  have hs2 : s.length ≤
      (allocCopy (allocCopy s k.Key).1 k.Value).1.length := by
    rw [hx2, hx1]
    simp
  have hs3 : s.length ≤ (allocCopy (allocCopy (allocCopy s k.Key).1
      k.Value).1 k.UserMeta).1.length := by
    rw [hx3, hx2, hx1]
    simp
  refine ⟨_, _, rfl, ?_, ?_, ?_, ?_, rfl, rfl, rfl, rfl, ?_⟩
  · rw [hx4, hx3, hx2]
    simp only [List.append_assoc]
    rw [readField_append _ _ _ (fun a ha => (allocCopy_fresh s k.Key a ha).2)]
    exact allocCopy_read s k.Key
  · rw [hx4, hx3]
    simp only [List.append_assoc]
    rw [readField_append _ _ _
      (fun a ha => (allocCopy_fresh _ k.Value a ha).2)]
    rw [allocCopy_read _ k.Value, hx1]
    exact readField_append _ _ _ hwV
  · rw [hx4]
    rw [readField_append _ _ _
      (fun a ha => (allocCopy_fresh _ k.UserMeta a ha).2)]
    rw [allocCopy_read _ k.UserMeta, hx2, hx1]
    simp only [List.append_assoc]
    exact readField_append _ _ _ hwU
  · rw [allocCopy_read _ k.Meta, hx3, hx2, hx1]
    simp only [List.append_assoc]
    exact readField_append _ _ _ hwM
  · intro a ha i b
    refine ⟨?_, ?_, ?_, ?_⟩
    · exact readField_writeByte_of_lower _ _ _
        (fun a' ha' =>
          lt_of_lt_of_le ha (allocCopy_fresh s k.Key a' ha').1) i b
    · exact readField_writeByte_of_lower _ _ _
        (fun a' ha' =>
          lt_of_lt_of_le (lt_of_lt_of_le ha hs1)
            (allocCopy_fresh _ k.Value a' ha').1) i b
    · exact readField_writeByte_of_lower _ _ _
        (fun a' ha' =>
          lt_of_lt_of_le (lt_of_lt_of_le ha hs2)
            (allocCopy_fresh _ k.UserMeta a' ha').1) i b
    · exact readField_writeByte_of_lower _ _ _
        (fun a' ha' =>
          lt_of_lt_of_le (lt_of_lt_of_le ha hs3)
            (allocCopy_fresh _ k.Meta a' ha').1) i b

end Pb



namespace Pb

/-! The claim theorems. -/

/-- C1: for every record type (KV, KVList, ManifestChange,
ManifestChangeSet, DataKey, Checksum, Match) and all valid field values,
including zero-length byte fields and zero-valued integers, decoding
the bytes produced by Marshal yields a record equal field-by-field to
the original: `Unmarshal (Marshal r) = ok r`. -/
theorem roundtrip_all_types :
    (∀ r : KV, r.Valid → KV.Unmarshal r.Marshal = .ok r) ∧
    (∀ r : KVList, r.Valid → KVList.Unmarshal r.Marshal = .ok r) ∧
    (∀ r : ManifestChange, r.Valid →
      ManifestChange.Unmarshal r.Marshal = .ok r) ∧
    (∀ r : ManifestChangeSet, r.Valid →
      ManifestChangeSet.Unmarshal r.Marshal = .ok r) ∧
    (∀ r : DataKey, r.Valid → DataKey.Unmarshal r.Marshal = .ok r) ∧
    (∀ r : Checksum, r.Valid → Checksum.Unmarshal r.Marshal = .ok r) ∧
    (∀ r : Match, r.Valid → Match.Unmarshal r.Marshal = .ok r) :=
  ⟨kv_unmarshal_marshal, kvlist_unmarshal_marshal,
   mc_unmarshal_marshal, mcs_unmarshal_marshal,
   dk_unmarshal_marshal, cks_unmarshal_marshal,
   mtch_unmarshal_marshal⟩

/-- Witness for C1 at concrete records (the repository test's values). -/
theorem roundtrip_all_types_witness :
    KV.Unmarshal (KV.Marshal ⟨[116, 101, 115, 116, 45, 107, 101, 121],
      [116, 101, 115, 116, 45, 118, 97, 108, 117, 101],
      [1], 12345, 67890, [2], 42, true⟩) =
      .ok ⟨[116, 101, 115, 116, 45, 107, 101, 121],
      [116, 101, 115, 116, 45, 118, 97, 108, 117, 101],
      [1], 12345, 67890, [2], 42, true⟩ ∧
    KVList.Unmarshal (KVList.Marshal ⟨[⟨[1], [2], [], 1, 0, [], 0, false⟩,
      ⟨[3], [4], [], 2, 0, [], 0, false⟩], 999⟩) =
      .ok ⟨[⟨[1], [2], [], 1, 0, [], 0, false⟩,
      ⟨[3], [4], [], 2, 0, [], 0, false⟩], 999⟩ ∧
    ManifestChange.Unmarshal (ManifestChange.Marshal
      ⟨12345, 0, 3, 67890, 0, 1⟩) = .ok ⟨12345, 0, 3, 67890, 0, 1⟩ ∧
    ManifestChangeSet.Unmarshal (ManifestChangeSet.Marshal
      ⟨[⟨1, 0, 2, 3, 0, 4⟩]⟩) = .ok ⟨[⟨1, 0, 2, 3, 0, 4⟩]⟩ ∧
    DataKey.Unmarshal (DataKey.Marshal ⟨123, [9, 8], [7], 1609459200⟩) =
      .ok ⟨123, [9, 8], [7], 1609459200⟩ ∧
    Checksum.Unmarshal (Checksum.Marshal ⟨1, 123456789012345⟩) =
      .ok ⟨1, 123456789012345⟩ ∧
    Match.Unmarshal (Match.Marshal ⟨[5, 6], [7]⟩) = .ok ⟨[5, 6], [7]⟩ :=
  ⟨roundtrip_all_types.1 _ (by decide),
   roundtrip_all_types.2.1 _ (by decide),
   roundtrip_all_types.2.2.1 _ (by decide),
   roundtrip_all_types.2.2.2.1 _ (by decide),
   roundtrip_all_types.2.2.2.2.1 _ (by decide),
   roundtrip_all_types.2.2.2.2.2.1 _ (by decide),
   roundtrip_all_types.2.2.2.2.2.2 _ (by decide)⟩

/-- C2: for every record r of every type and every k below the length
of `Marshal r`, decoding the first k bytes of `Marshal r` returns the
BufferTooSmall error; it never succeeds and never reaches an
out-of-bounds read (the reads would return `panicOOB` if one did). -/
theorem truncation_all_types :
    (∀ r : KV, r.Valid → ∀ k < r.Marshal.length,
      KV.Unmarshal (r.Marshal.take k) = .error .bufferTooSmall) ∧
    (∀ r : KVList, r.Valid → ∀ k < r.Marshal.length,
      KVList.Unmarshal (r.Marshal.take k) = .error .bufferTooSmall) ∧
    (∀ r : ManifestChange, ∀ k < r.Marshal.length,
      ManifestChange.Unmarshal (r.Marshal.take k) =
        .error .bufferTooSmall) ∧
    (∀ r : ManifestChangeSet, r.Valid → ∀ k < r.Marshal.length,
      ManifestChangeSet.Unmarshal (r.Marshal.take k) =
        .error .bufferTooSmall) ∧
    (∀ r : DataKey, r.Valid → ∀ k < r.Marshal.length,
      DataKey.Unmarshal (r.Marshal.take k) = .error .bufferTooSmall) ∧
    (∀ r : Checksum, ∀ k < r.Marshal.length,
      Checksum.Unmarshal (r.Marshal.take k) = .error .bufferTooSmall) ∧
    (∀ r : Match, r.Valid → ∀ k < r.Marshal.length,
      Match.Unmarshal (r.Marshal.take k) = .error .bufferTooSmall) :=
  ⟨kv_unmarshal_truncated, kvlist_unmarshal_truncated,
   mc_unmarshal_truncated, mcs_unmarshal_truncated,
   dk_unmarshal_truncated, cks_unmarshal_truncated,
   mtch_unmarshal_truncated⟩

/-- Witness for C2: concrete truncations of concrete encodings. -/
theorem truncation_all_types_witness :
    KV.Unmarshal ((KV.Marshal ⟨[1], [], [], 0, 0, [], 0, false⟩).take 20) =
      .error .bufferTooSmall ∧
    KVList.Unmarshal ((KVList.Marshal
      ⟨[⟨[1], [2], [], 1, 0, [], 0, false⟩], 999⟩).take 30) =
      .error .bufferTooSmall ∧
    ManifestChange.Unmarshal ((ManifestChange.Marshal
      ⟨1, 0, 2, 3, 0, 4⟩).take 10) = .error .bufferTooSmall ∧
    ManifestChangeSet.Unmarshal ((ManifestChangeSet.Marshal
      ⟨[⟨1, 0, 2, 3, 0, 4⟩]⟩).take 10) = .error .bufferTooSmall ∧
    DataKey.Unmarshal ((DataKey.Marshal ⟨123, [9, 8], [7], 160⟩).take 25) =
      .error .bufferTooSmall ∧
    Checksum.Unmarshal ((Checksum.Marshal ⟨1, 55⟩).take 5) =
      .error .bufferTooSmall ∧
    Match.Unmarshal ((Match.Marshal ⟨[5, 6], [7]⟩).take 9) =
      .error .bufferTooSmall :=
  ⟨truncation_all_types.1 _ (by decide) 20 (by decide),
   truncation_all_types.2.1 _ (by decide) 30 (by decide),
   truncation_all_types.2.2.1 _ 10 (by decide),
   truncation_all_types.2.2.2.1 _ (by decide) 10 (by decide),
   truncation_all_types.2.2.2.2.1 _ (by decide) 25 (by decide),
   truncation_all_types.2.2.2.2.2.1 _ 5 (by decide),
   truncation_all_types.2.2.2.2.2.2 _ (by decide) 9 (by decide)⟩

/-- C3: on an arbitrary input buffer, every decode either succeeds or
fails with the buffer-too-small error.  The read primitives of the
embedding return the distinct `panicOOB` value exactly when the Go
code would index out of bounds, so this disjunction also proves that
every length-prefix-driven read is caught by a bounds check before it
happens, for any contents of the length fields. -/
theorem decode_safety_all_types :
    (∀ data : List Nat, (∃ r, KV.Unmarshal data = .ok r) ∨
      KV.Unmarshal data = .error .bufferTooSmall) ∧
    (∀ data : List Nat, (∃ r, KVList.Unmarshal data = .ok r) ∨
      KVList.Unmarshal data = .error .bufferTooSmall) ∧
    (∀ data : List Nat, (∃ r, ManifestChange.Unmarshal data = .ok r) ∨
      ManifestChange.Unmarshal data = .error .bufferTooSmall) ∧
    (∀ data : List Nat, (∃ r, ManifestChangeSet.Unmarshal data = .ok r) ∨
      ManifestChangeSet.Unmarshal data = .error .bufferTooSmall) ∧
    (∀ data : List Nat, (∃ r, DataKey.Unmarshal data = .ok r) ∨
      DataKey.Unmarshal data = .error .bufferTooSmall) ∧
    (∀ data : List Nat, (∃ r, Checksum.Unmarshal data = .ok r) ∨
      Checksum.Unmarshal data = .error .bufferTooSmall) ∧
    (∀ data : List Nat, (∃ r, Match.Unmarshal data = .ok r) ∨
      Match.Unmarshal data = .error .bufferTooSmall) :=
  ⟨kv_unmarshal_classify, kvlist_unmarshal_classify,
   mc_unmarshal_classify, mcs_unmarshal_classify,
   dk_unmarshal_classify, cks_unmarshal_classify,
   mtch_unmarshal_classify⟩

/-- Witness for C3 on a concrete garbage buffer. -/
theorem decode_safety_all_types_witness :
    ((∃ r, KV.Unmarshal [255, 255, 255, 255] = .ok r) ∨
      KV.Unmarshal [255, 255, 255, 255] = .error .bufferTooSmall) ∧
    ((∃ r, KVList.Unmarshal [255, 255, 255, 255] = .ok r) ∨
      KVList.Unmarshal [255, 255, 255, 255] = .error .bufferTooSmall) ∧
    ((∃ r, Match.Unmarshal [255, 255, 255, 255] = .ok r) ∨
      Match.Unmarshal [255, 255, 255, 255] = .error .bufferTooSmall) :=
  ⟨decode_safety_all_types.1 _, decode_safety_all_types.2.1 _,
   decode_safety_all_types.2.2.2.2.2.2 _⟩

/-- C4: for every record of every type, the length of the bytes
returned by Marshal equals Size. -/
theorem marshal_length_eq_size :
    (∀ r : KV, r.Marshal.length = r.Size) ∧
    (∀ r : KVList, r.Marshal.length = r.Size) ∧
    (∀ r : ManifestChange, r.Marshal.length = r.Size) ∧
    (∀ r : ManifestChangeSet, r.Marshal.length = r.Size) ∧
    (∀ r : DataKey, r.Marshal.length = r.Size) ∧
    (∀ r : Checksum, r.Marshal.length = r.Size) ∧
    (∀ r : Match, r.Marshal.length = r.Size) :=
  ⟨kv_marshal_length, kvlist_marshal_length, mc_marshal_length,
   mcs_marshal_length, dk_marshal_length,
   cks_marshal_length, mtch_marshal_length⟩

/-- Witness for C4 at concrete records (the spec's 57-byte scenario). -/
theorem marshal_length_eq_size_witness :
    (KV.Marshal ⟨[116, 101, 115, 116, 45, 107, 101, 121],
      [116, 101, 115, 116, 45, 118, 97, 108, 117, 101],
      [1], 12345, 67890, [2], 42, true⟩).length =
      KV.Size ⟨[116, 101, 115, 116, 45, 107, 101, 121],
      [116, 101, 115, 116, 45, 118, 97, 108, 117, 101],
      [1], 12345, 67890, [2], 42, true⟩ ∧
    (KVList.Marshal ⟨[⟨[1], [2], [], 1, 0, [], 0, false⟩], 999⟩).length =
      KVList.Size ⟨[⟨[1], [2], [], 1, 0, [], 0, false⟩], 999⟩ ∧
    (ManifestChangeSet.Marshal ⟨[⟨1, 0, 2, 3, 0, 4⟩]⟩).length =
      ManifestChangeSet.Size ⟨[⟨1, 0, 2, 3, 0, 4⟩]⟩ :=
  ⟨marshal_length_eq_size.1 _, marshal_length_eq_size.2.1 _,
   marshal_length_eq_size.2.2.2.1 _⟩

/-- C5: `MarshalAppend P r` keeps the first `P.length` bytes equal to
`P` and the remainder decodes back to `r`, for every record type. -/
theorem marshalAppend_prefix_roundtrip :
    (∀ (P : List Nat) (r : KV), r.Valid →
      (MarshalAppend KV.Marshal P r).take P.length = P ∧
      KV.Unmarshal ((MarshalAppend KV.Marshal P r).drop P.length) = .ok r) ∧
    (∀ (P : List Nat) (r : KVList), r.Valid →
      (MarshalAppend KVList.Marshal P r).take P.length = P ∧
      KVList.Unmarshal ((MarshalAppend KVList.Marshal P r).drop P.length) =
        .ok r) ∧
    (∀ (P : List Nat) (r : ManifestChange), r.Valid →
      (MarshalAppend ManifestChange.Marshal P r).take P.length = P ∧
      ManifestChange.Unmarshal
        ((MarshalAppend ManifestChange.Marshal P r).drop P.length) = .ok r) ∧
    (∀ (P : List Nat) (r : ManifestChangeSet), r.Valid →
      (MarshalAppend ManifestChangeSet.Marshal P r).take P.length = P ∧
      ManifestChangeSet.Unmarshal
        ((MarshalAppend ManifestChangeSet.Marshal P r).drop P.length) =
        .ok r) ∧
    (∀ (P : List Nat) (r : DataKey), r.Valid →
      (MarshalAppend DataKey.Marshal P r).take P.length = P ∧
      DataKey.Unmarshal ((MarshalAppend DataKey.Marshal P r).drop P.length) =
        .ok r) ∧
    (∀ (P : List Nat) (r : Checksum), r.Valid →
      (MarshalAppend Checksum.Marshal P r).take P.length = P ∧
      Checksum.Unmarshal
        ((MarshalAppend Checksum.Marshal P r).drop P.length) = .ok r) ∧
    (∀ (P : List Nat) (r : Match), r.Valid →
      (MarshalAppend Match.Marshal P r).take P.length = P ∧
      Match.Unmarshal ((MarshalAppend Match.Marshal P r).drop P.length) =
        .ok r) := by
  refine ⟨fun P r h => ⟨List.take_left P r.Marshal, ?_⟩,
    fun P r h => ⟨List.take_left P r.Marshal, ?_⟩,
    fun P r h => ⟨List.take_left P r.Marshal, ?_⟩,
    fun P r h => ⟨List.take_left P r.Marshal, ?_⟩,
    fun P r h => ⟨List.take_left P r.Marshal, ?_⟩,
    fun P r h => ⟨List.take_left P r.Marshal, ?_⟩,
    fun P r h => ⟨List.take_left P r.Marshal, ?_⟩⟩
  · show KV.Unmarshal ((P ++ r.Marshal).drop P.length) = .ok r
    rw [List.drop_left]
    exact kv_unmarshal_marshal r h
  · show KVList.Unmarshal ((P ++ r.Marshal).drop P.length) = .ok r
    rw [List.drop_left]
    exact kvlist_unmarshal_marshal r h
  · show ManifestChange.Unmarshal ((P ++ r.Marshal).drop P.length) = .ok r
    rw [List.drop_left]
    exact mc_unmarshal_marshal r h
  · show ManifestChangeSet.Unmarshal ((P ++ r.Marshal).drop P.length) = .ok r
    rw [List.drop_left]
    exact mcs_unmarshal_marshal r h
  · show DataKey.Unmarshal ((P ++ r.Marshal).drop P.length) = .ok r
    rw [List.drop_left]
    exact dk_unmarshal_marshal r h
  · show Checksum.Unmarshal ((P ++ r.Marshal).drop P.length) = .ok r
    rw [List.drop_left]
    exact cks_unmarshal_marshal r h
  · show Match.Unmarshal ((P ++ r.Marshal).drop P.length) = .ok r
    rw [List.drop_left]
    exact mtch_unmarshal_marshal r h

/-- Witness for C5: the spec's scenario, a 7-byte prefix before a KV
with version 100. -/
theorem marshalAppend_prefix_roundtrip_witness :
    (MarshalAppend KV.Marshal [112, 114, 101, 102, 105, 120, 45]
      ⟨[116, 101, 115, 116], [118, 97, 108, 117, 101], [], 100, 0, [], 0,
        false⟩).take 7 = [112, 114, 101, 102, 105, 120, 45] ∧
    KV.Unmarshal ((MarshalAppend KV.Marshal [112, 114, 101, 102, 105, 120, 45]
      ⟨[116, 101, 115, 116], [118, 97, 108, 117, 101], [], 100, 0, [], 0,
        false⟩).drop 7) =
      .ok ⟨[116, 101, 115, 116], [118, 97, 108, 117, 101], [], 100, 0, [], 0,
        false⟩ :=
  marshalAppend_prefix_roundtrip.1 [112, 114, 101, 102, 105, 120, 45] _
    (by decide)

/-- C6: a ManifestChange whose `op` or `encryptionAlgo` holds any raw
`int32` value — in particular one outside the named enumerations
CREATE/DELETE and AES — marshals and unmarshals to the same raw
discriminant; a Checksum's `algo` likewise.  `Valid` only bounds the
fields to the `int32` range and never restricts them to the named
enumerators, so no decode rejects an unknown enum value. -/
theorem unknown_enum_roundtrip :
    (∀ r : ManifestChange, r.Valid →
      ManifestChange.Unmarshal r.Marshal = .ok r) ∧
    (∀ r : Checksum, r.Valid → Checksum.Unmarshal r.Marshal = .ok r) :=
  ⟨mc_unmarshal_marshal, cks_unmarshal_marshal⟩

/-- Witness for C6 with discriminants outside the named enums:
op 99, encryptionAlgo -7, checksum algo 5. -/
theorem unknown_enum_roundtrip_witness :
    ManifestChange.Unmarshal (ManifestChange.Marshal ⟨1, 99, 2, 3, -7, 4⟩) =
      .ok ⟨1, 99, 2, 3, -7, 4⟩ ∧
    Checksum.Unmarshal (Checksum.Marshal ⟨5, 10⟩) = .ok ⟨5, 10⟩ :=
  ⟨unknown_enum_roundtrip.1 _ (by decide),
   unknown_enum_roundtrip.2 _ (by decide)⟩

/-- C7: when a child entry of a composite fails to decode, the
composite's Unmarshal returns exactly that child error, unmodified,
and never returns a partial composite as success; a buffer whose
(n+1)-st entry chunk makes the child Unmarshal fail with error e makes
the parent fail with e.  On the encode side, a child handed a slice of
at least its `Size` (as `KVList.Marshal` does) never fails, so there
is no child encode error to swallow. -/
theorem composite_error_propagation :
    (∀ (kvs : List KV), (∀ kv ∈ kvs, kv.Valid ∧ kv.Size < 4294967296) →
      kvs.length + 1 < 4294967296 →
      ∀ (chunk tail : List Nat), chunk.length < 4294967296 →
      ∀ e : DErr, KV.Unmarshal chunk = .error e →
      KVList.Unmarshal (u32le (kvs.length + 1) ++ (encodeKVEntries kvs ++
        (u32le chunk.length ++ (chunk ++ tail)))) = .error e) ∧
    (∀ (cs : List ManifestChange), (∀ c ∈ cs, c.Valid) →
      cs.length + 1 < 4294967296 →
      ∀ (chunk tail : List Nat), chunk.length < 4294967296 →
      ∀ e : DErr, ManifestChange.Unmarshal chunk = .error e →
      ManifestChangeSet.Unmarshal (u32le (cs.length + 1) ++
        (encodeMCEntries cs ++ (u32le chunk.length ++ (chunk ++ tail)))) =
        .error e) ∧
    (∀ (kv : KV) (buf : List Nat), ¬ buf.length < kv.Size →
      kv.MarshalToSizedBuffer buf =
        .ok (kv.Size, kv.Marshal ++ buf.drop kv.Size)) :=
  ⟨fun kvs hv hn chunk tail hcl e hche =>
     kvlist_unmarshal_child_error kvs hv hn chunk tail hcl e hche,
   fun cs hv hn chunk tail hcl e hche =>
     mcs_unmarshal_child_error cs hv hn chunk tail hcl e hche,
   KV.marshalToSizedBuffer_ok⟩

/-- Witness for C7: a one-entry KVList whose entry chunk is the 3-byte
buffer `[1, 2, 3]` (child fails with bufferTooSmall), likewise a
ManifestChangeSet with chunk `[9]`, and a KV encoded into an
exactly-sized buffer. -/
theorem composite_error_propagation_witness :
    KVList.Unmarshal (u32le 1 ++ (encodeKVEntries [] ++
      (u32le 3 ++ ([1, 2, 3] ++ [])))) = .error .bufferTooSmall ∧
    ManifestChangeSet.Unmarshal (u32le 1 ++ (encodeMCEntries [] ++
      (u32le 1 ++ ([9] ++ [])))) = .error .bufferTooSmall ∧
    KV.MarshalToSizedBuffer ⟨[1], [], [], 0, 0, [], 0, false⟩
      (List.replicate 38 0) =
      .ok (38, KV.Marshal ⟨[1], [], [], 0, 0, [], 0, false⟩ ++
        (List.replicate 38 0).drop 38) :=
  ⟨composite_error_propagation.1 [] (by simp) (by decide) [1, 2, 3] []
     (by decide) .bufferTooSmall (by decide),
   composite_error_propagation.2.1 [] (by simp) (by decide) [9] []
     (by decide) .bufferTooSmall (by decide),
   composite_error_propagation.2.2 _ _ (by decide)⟩

/-- C8: for every type and every input buffer, any error `Unmarshal`
returns is the BufferTooSmall error; the InvalidData error is never
returned by any decode path of this backend. -/
theorem never_invalid_data :
    (∀ data : List Nat, KV.Unmarshal data ≠ .error .invalidData) ∧
    (∀ data : List Nat, KVList.Unmarshal data ≠ .error .invalidData) ∧
    (∀ data : List Nat, ManifestChange.Unmarshal data ≠ .error .invalidData) ∧
    (∀ data : List Nat,
      ManifestChangeSet.Unmarshal data ≠ .error .invalidData) ∧
    (∀ data : List Nat, DataKey.Unmarshal data ≠ .error .invalidData) ∧
    (∀ data : List Nat, Checksum.Unmarshal data ≠ .error .invalidData) ∧
    (∀ data : List Nat, Match.Unmarshal data ≠ .error .invalidData) := by
  refine ⟨fun data => ?_, fun data => ?_, fun data => ?_, fun data => ?_,
    fun data => ?_, fun data => ?_, fun data => ?_⟩
  · rcases kv_unmarshal_classify data with ⟨r, hr⟩ | hr <;> rw [hr] <;> simp
  · rcases kvlist_unmarshal_classify data with ⟨r, hr⟩ | hr <;> rw [hr] <;>
      simp
  · rcases mc_unmarshal_classify data with ⟨r, hr⟩ | hr <;>
      rw [hr] <;> simp
  · rcases mcs_unmarshal_classify data with ⟨r, hr⟩ | hr <;>
      rw [hr] <;> simp
  · rcases dk_unmarshal_classify data with ⟨r, hr⟩ | hr <;> rw [hr] <;>
      simp
  · rcases cks_unmarshal_classify data with ⟨r, hr⟩ | hr <;> rw [hr] <;>
      simp
  · rcases mtch_unmarshal_classify data with ⟨r, hr⟩ | hr <;> rw [hr] <;>
      simp

/-- Witness for C8 on a concrete buffer. -/
theorem never_invalid_data_witness :
    KV.Unmarshal [1, 2, 3] ≠ .error .invalidData ∧
    DataKey.Unmarshal [1, 2, 3] ≠ .error .invalidData :=
  ⟨never_invalid_data.1 [1, 2, 3], never_invalid_data.2.2.2.2.1 [1, 2, 3]⟩

/-- C9 (amended): only KV implements Clone (`hasClone` records the
source's method surface); for a KV, the clone equals the original
field-by-field at the moment of cloning, a nil receiver clones to nil,
and in-place mutation of any pre-existing byte array — in particular
the original's byte fields — is never observable through the clone. -/
theorem kv_clone_correct (s : Store) (k : KVRef) (hwf : KVRef.Wf s k) :
    hasClone RecordType.kv = true ∧
    KV.CloneRef s none = (s, none) ∧
    ∃ s' c,
      KV.CloneRef s (some k) = (s', some c) ∧
      readField s' c.Key = readField s k.Key ∧
      readField s' c.Value = readField s k.Value ∧
      readField s' c.UserMeta = readField s k.UserMeta ∧
      readField s' c.Meta = readField s k.Meta ∧
      c.Version = k.Version ∧ c.ExpiresAt = k.ExpiresAt ∧
      c.StreamId = k.StreamId ∧ c.StreamDone = k.StreamDone ∧
      (∀ a, a < s.length → ∀ i b,
        readField (Store.writeByte s' a i b) c.Key = readField s' c.Key ∧
        readField (Store.writeByte s' a i b) c.Value = readField s' c.Value ∧
        readField (Store.writeByte s' a i b) c.UserMeta =
          readField s' c.UserMeta ∧
        readField (Store.writeByte s' a i b) c.Meta = readField s' c.Meta) :=
  ⟨rfl, rfl, KV.cloneRef_spec s k hwf⟩

/-- Counterexample for C9 as stated: not every record type implements
Clone — `hasClone`, the source's method surface, is false at
ManifestChange (and at every type other than KV). -/
theorem clone_not_all_types :
    ¬ (∀ t : RecordType, hasClone t = true) :=
  fun h => absurd (h RecordType.manifestChange) (by decide)

/-- Witness for C9's amended theorem at a concrete store and record. -/
theorem kv_clone_correct_witness :
    hasClone RecordType.kv = true ∧
    KV.CloneRef [[1, 2], [3]] none = ([[1, 2], [3]], none) ∧
    ∃ s' c,
      KV.CloneRef [[1, 2], [3]]
        (some ⟨some 0, some 1, none, none, 5, 6, 7, true⟩) = (s', some c) ∧
      readField s' c.Key =
        readField [[1, 2], [3]] (some 0) ∧
      readField s' c.Value =
        readField [[1, 2], [3]] (some 1) ∧
      readField s' c.UserMeta = readField [[1, 2], [3]] none ∧
      readField s' c.Meta = readField [[1, 2], [3]] none ∧
      c.Version = 5 ∧ c.ExpiresAt = 6 ∧ c.StreamId = 7 ∧ c.StreamDone = true ∧
      (∀ a, a < ([[1, 2], [3]] : Store).length → ∀ i b,
        readField (Store.writeByte s' a i b) c.Key = readField s' c.Key ∧
        readField (Store.writeByte s' a i b) c.Value = readField s' c.Value ∧
        readField (Store.writeByte s' a i b) c.UserMeta =
          readField s' c.UserMeta ∧
        readField (Store.writeByte s' a i b) c.Meta = readField s' c.Meta) :=
  kv_clone_correct [[1, 2], [3]] ⟨some 0, some 1, none, none, 5, 6, 7, true⟩
    (by refine ⟨?_, ?_, ?_, ?_⟩ <;> intro a ha <;> simp at ha ⊢ <;> omega)

/-- C10: decoding a valid encoding followed by arbitrary trailing
bytes succeeds and yields the same record as decoding the exact
encoding, for every record type: the decoder reads only the leading
encoding and ignores the rest. -/
theorem trailing_bytes_ignored :
    (∀ (r : KV) (extra : List Nat), r.Valid →
      KV.Unmarshal (r.Marshal ++ extra) = .ok r) ∧
    (∀ (r : KVList) (extra : List Nat), r.Valid →
      KVList.Unmarshal (r.Marshal ++ extra) = .ok r) ∧
    (∀ (r : ManifestChange) (extra : List Nat), r.Valid →
      ManifestChange.Unmarshal (r.Marshal ++ extra) = .ok r) ∧
    (∀ (r : ManifestChangeSet) (extra : List Nat), r.Valid →
      ManifestChangeSet.Unmarshal (r.Marshal ++ extra) = .ok r) ∧
    (∀ (r : DataKey) (extra : List Nat), r.Valid →
      DataKey.Unmarshal (r.Marshal ++ extra) = .ok r) ∧
    (∀ (r : Checksum) (extra : List Nat), r.Valid →
      Checksum.Unmarshal (r.Marshal ++ extra) = .ok r) ∧
    (∀ (r : Match) (extra : List Nat), r.Valid →
      Match.Unmarshal (r.Marshal ++ extra) = .ok r) :=
  ⟨fun r extra h => kv_unmarshal_marshal_append r h extra,
   fun r extra h => kvlist_unmarshal_marshal_append r h extra,
   fun r extra h => mc_unmarshal_marshal_append r h extra,
   fun r extra h => mcs_unmarshal_marshal_append r h extra,
   fun r extra h => dk_unmarshal_marshal_append r h extra,
   fun r extra h => cks_unmarshal_marshal_append r h extra,
   fun r extra h => mtch_unmarshal_marshal_append r h extra⟩

/-- Witness for C10: concrete encodings with junk appended. -/
theorem trailing_bytes_ignored_witness :
    KV.Unmarshal (KV.Marshal ⟨[1], [], [], 0, 0, [], 0, false⟩ ++ [9, 9]) =
      .ok ⟨[1], [], [], 0, 0, [], 0, false⟩ ∧
    KVList.Unmarshal (KVList.Marshal
      ⟨[⟨[1], [2], [], 1, 0, [], 0, false⟩], 999⟩ ++ [9, 9]) =
      .ok ⟨[⟨[1], [2], [], 1, 0, [], 0, false⟩], 999⟩ ∧
    ManifestChange.Unmarshal (ManifestChange.Marshal ⟨1, 0, 2, 3, 0, 4⟩ ++
      [9, 9]) = .ok ⟨1, 0, 2, 3, 0, 4⟩ ∧
    Checksum.Unmarshal (Checksum.Marshal ⟨1, 55⟩ ++ [9, 9]) = .ok ⟨1, 55⟩ ∧
    Match.Unmarshal (Match.Marshal ⟨[5, 6], [7]⟩ ++ [9, 9]) =
      .ok ⟨[5, 6], [7]⟩ :=
  ⟨trailing_bytes_ignored.1 _ [9, 9] (by decide),
   trailing_bytes_ignored.2.1 _ [9, 9] (by decide),
   trailing_bytes_ignored.2.2.1 _ [9, 9] (by decide),
   trailing_bytes_ignored.2.2.2.2.2.1 _ [9, 9] (by decide),
   trailing_bytes_ignored.2.2.2.2.2.2 _ [9, 9] (by decide)⟩

end Pb
